import Mathlib

/-!
Verification development for the woollib thesis store.

Shallow embedding of the modular sources (`src/content.rs`, `src/text.rs`,
`src/relation.rs`, `src/thesis.rs`, `src/read_transaction.rs`,
`src/write_transaction.rs`, `src/commands.rs`).  Machine bytes are `Nat`
values `< 256`; a trove `ObjectId` is carried in its canonical URL-safe
base64 22-character textual form (the form in which the code serializes,
indexes and compares ids); the xxh3-128 hash itself is external code and is
not modelled — claims about `Content::id` are settled at the level of the
byte string that is fed to the hash.
-/

/-- A thesis id: the URL-safe base64 22-character textual form of a trove
`ObjectId` (trove is an external crate; ids are opaque and compared
bytewise, which on canonical text forms is string equality). -/
abbrev ObjId := String

/-- `Text` from src/text.rs:34-41: parallel sequences of raw parts and
references plus the interleaving flag. -/
structure Text where
  raw_text_parts : List String
  references : List ObjId
  start_with_reference : Bool
deriving DecidableEq, Repr

/-- `Relation` from src/relation.rs:28-33 (`from` and `to` are Lean
keywords, so the fields are named `fromId` and `toId`). -/
structure Relation where
  fromId : ObjId
  toId : ObjId
  kind : String
deriving DecidableEq, Repr

/-- `Content` from src/content.rs:8-12. -/
inductive Content where
  | text (t : Text)
  | relation (r : Relation)
deriving DecidableEq, Repr

/-- `Thesis` from src/thesis.rs:12-19. -/
structure Thesis where
  «alias» : Option String
  content : Content
  tags : List String
deriving DecidableEq, Repr

/-- Helper for `Text::composed` (src/text.rs:111-120), the
`start_with_reference` branch: iterate the references, emitting `[id]` and
then the raw part with the same index when one exists.  The index-guarded
loop of the source is written as recursion on the two parallel lists. -/
def composedRefsFirst : List ObjId → List String → String
  | [], _ => ""
  | r :: rs, [] => "[" ++ r ++ "]" ++ composedRefsFirst rs []
  | r :: rs, p :: ps => "[" ++ r ++ "]" ++ p ++ composedRefsFirst rs ps

/-- Helper for `Text::composed` (src/text.rs:121-134), the other branch:
iterate the raw parts, emitting the part and then the reference with the
same index when one exists. -/
def composedPartsFirst : List String → List ObjId → String
  | [], _ => ""
  | p :: ps, [] => p ++ composedPartsFirst ps []
  | p :: ps, r :: rs => p ++ "[" ++ r ++ "]" ++ composedPartsFirst ps rs

/-- `Text::composed` from src/text.rs:109-136: interleave parts and
references (references rendered as `[<22-char id>]`, which is exactly the
string serde produces for an `ObjectId`). -/
def Text.composed (t : Text) : String :=
  if t.start_with_reference then composedRefsFirst t.references t.raw_text_parts
  else composedPartsFirst t.raw_text_parts t.references

/-! ### C1: the byte string hashed by `Content::id` (src/content.rs:15-32) -/

/-- UTF-8 encoding of one scalar value, as byte values. -/
def utf8Char (c : Char) : List Nat :=
  let n := c.toNat
  if n < 0x80 then [n]
  else if n < 0x800 then [0xC0 + n / 64, 0x80 + n % 64]
  else if n < 0x10000 then [0xE0 + n / 4096, 0x80 + n / 64 % 64, 0x80 + n % 64]
  else [0xF0 + n / 262144, 0x80 + n / 4096 % 64, 0x80 + n / 64 % 64, 0x80 + n % 64]

/-- UTF-8 bytes of a string (what `String::bytes` iterates in Rust). -/
def utf8 (s : String) : List Nat := (s.data.map utf8Char).flatten

/-- The URL-safe base64 alphabet used for the textual form of ObjectId. -/
def b64Alphabet : List Char :=
  "ABCDEFGHIJKLMNOPQRSTUVWXYZabcdefghijklmnopqrstuvwxyz0123456789-_".data

/-- Value of one base64url character. -/
def b64Val (c : Char) : Nat := b64Alphabet.indexOf c

/-- The six bits of a sextet, most significant first. -/
def bits6 (n : Nat) : List Nat :=
  [n / 32 % 2, n / 16 % 2, n / 8 % 2, n / 4 % 2, n / 2 % 2, n % 2]

/-- Regroup a bit list into bytes; a trailing group shorter than 8 bits is
dropped (22 sextets carry 132 bits of which the id uses the first 128). -/
def bytesOfBits : List Nat → List Nat
  | b7 :: b6 :: b5 :: b4 :: b3 :: b2 :: b1 :: b0 :: rest =>
      (((((((b7 * 2 + b6) * 2 + b5) * 2 + b4) * 2 + b3) * 2 + b2) * 2 + b1) * 2 + b0)
        :: bytesOfBits rest
  | _ => []

/-- The 16 raw bytes of a trove `ObjectId`, recovered from its 22-character
base64url text form.  These are the bytes `bincode` emits for the
`value: [u8; 16]` field of `ObjectId` (a fixed-size array is encoded with
no length prefix, each `u8` as one byte). -/
def objectIdBytes (i : ObjId) : List Nat :=
  bytesOfBits ((i.data.map (fun c => bits6 (b64Val c))).flatten)

/-- `k` bytes, little endian. -/
def leBytes : Nat → Nat → List Nat
  | 0, _ => []
  | k + 1, n => n % 256 :: leBytes k (n / 256)

/-- Variable-length integer encoding of `bincode::config::standard()`
(bincode 2): values below 251 are a single byte, then markers 251/252/253
with a little-endian u16/u32/u64 payload. -/
def bincodeVarint (n : Nat) : List Nat :=
  if n < 251 then [n]
  else if n < 2 ^ 16 then 251 :: leBytes 2 n
  else if n < 2 ^ 32 then 252 :: leBytes 4 n
  else 253 :: leBytes 8 n

/-- `bincode` standard-config encoding of a Rust `String`: varint length
followed by the UTF-8 bytes. -/
def bincodeString (s : String) : List Nat := bincodeVarint (utf8 s).length ++ utf8 s

/-- `bincode::encode_to_vec(relation, standard())` from src/content.rs:19:
the derived `Encode` emits the fields in declaration order: `from`'s 16 raw
bytes, `to`'s 16 raw bytes, then `kind`'s inner `String`. -/
def bincodeRelation (r : Relation) : List Nat :=
  objectIdBytes r.fromId ++ objectIdBytes r.toId ++ bincodeString r.kind

/-- The byte string `Content::id` (src/content.rs:15-32) feeds to
`xxh3_128`: for `Text` the UTF-8 bytes of the composed string, for
`Relation` the bincode standard-config encoding of the `Relation` struct
alone. -/
def contentIdSource : Content → List Nat
  | .text t => utf8 t.composed
  | .relation r => bincodeRelation r

/-- Eight bytes little endian: the `u64_le` of claim C1. -/
def u64le (n : Nat) : List Nat := leBytes 8 n

/-- A string in the canonical form that claim C1 describes:
`u64_le(length)` followed by the UTF-8 bytes. -/
def specString (s : String) : List Nat := u64le (utf8 s).length ++ utf8 s

/-- The canonical binary encoding of `Content` exactly as claim C1 / spec
§4.A word it (this definition follows the spec's words, for comparison with
`contentIdSource` which follows the code): variant discriminator 0 for
`Text` and 1 for `Relation`; each string as `u64_le(length) ‖ bytes`;
length-prefixed sequence fields; a `Relation` as `from ‖ to ‖ kind`. -/
def specCanonicalEncode : Content → List Nat
  | .text t =>
      0 :: u64le t.raw_text_parts.length ++ (t.raw_text_parts.map specString).flatten
        ++ u64le t.references.length ++ (t.references.map objectIdBytes).flatten
        ++ [if t.start_with_reference then 1 else 0]
  | .relation r =>
      1 :: objectIdBytes r.fromId ++ objectIdBytes r.toId ++ specString r.kind

/-- The hash pre-image `Content::id` actually uses, stated flatly as the
amended claim words it: for `Text` the UTF-8 bytes of the composed text
(no discriminator, no length prefix), for `Relation` the raw `from` and
`to` id bytes followed by the varint-length-prefixed kind (bincode
standard config; no discriminator, varint rather than `u64_le`). -/
def amendedIdEncoding : Content → List Nat
  | .text t => utf8 t.composed
  | .relation r =>
      objectIdBytes r.fromId ++ objectIdBytes r.toId
        ++ bincodeVarint (utf8 r.kind).length ++ utf8 r.kind

/-! ### The chest-backed store and the write transaction
(src/write_transaction.rs, src/read_transaction.rs)

The chest is an external document store holding one JSON document per id;
we model the visible state of a transaction as an association list of
`(id, thesis)` entries.  Secondary-index `select` calls are filters over
the entries (the chest maintains the declared indexes over `alias`,
`content.Relation.from`, `content.Relation.to` and `content.Text.references`
transparently).  Chest operations on an absent object surface as an error,
modelled by `WriteError.chestMissingObject`.  The content hash is external
(xxh3): `Thesis::id()` is abstracted as an `idOf : Content → ObjId`
parameter where an id must be computed. -/

abbrev Store := List (ObjId × Thesis)

/-- `contains_object_with_id`. -/
def containsObj (st : Store) (i : ObjId) : Bool := st.any (fun e => e.1 == i)

/-- `chest_transaction.remove(id, &vec![])`: delete the object with this id. -/
def eraseObj (st : Store) (i : ObjId) : Store := st.filter (fun e => e.1 != i)

/-- Does this thesis's content reference `i` as a relation endpoint? -/
def touches (t : Thesis) (i : ObjId) : Bool :=
  match t.content with
  | .relation r => r.fromId == i || r.toId == i
  | .text _ => false

/-- Does this thesis's content mention `i` among its text references? -/
def textRefs (t : Thesis) (i : ObjId) : Bool :=
  match t.content with
  | .text tx => tx.references.contains i
  | .relation _ => false

/-- `select` on the Direct index over `content.Relation.from`. -/
def relationIdsFrom (st : Store) (i : ObjId) : List ObjId :=
  (st.filter (fun e =>
    match e.2.content with
    | .relation r => r.fromId == i
    | .text _ => false)).map (·.1)

/-- `select` on the Direct index over `content.Relation.to`. -/
def relationIdsTo (st : Store) (i : ObjId) : List ObjId :=
  (st.filter (fun e =>
    match e.2.content with
    | .relation r => r.toId == i
    | .text _ => false)).map (·.1)

/-- Step 2 of `remove_thesis` (src/write_transaction.rs:103-123): the two
index lookups chained. -/
def relationsTouching (st : Store) (i : ObjId) : List ObjId :=
  relationIdsFrom st i ++ relationIdsTo st i

/-- `select` on the Array index over `content.Text.references`. -/
def textMentionIds (st : Store) (i : ObjId) : List ObjId :=
  (st.filter (fun e => textRefs e.2 i)).map (·.1)

/-- `where_referenced` from src/read_transaction.rs:40-71: the Array-index
lookup over `content.Text.references` chained with the two Direct-index
lookups over `content.Relation.from` and `content.Relation.to`. -/
def whereReferenced (st : Store) (i : ObjId) : List ObjId :=
  textMentionIds st i ++ relationIdsFrom st i ++ relationIdsTo st i

/-- Steps 1-3 of `remove_thesis` (src/write_transaction.rs:101-126):
delete the object, then select and plainly delete every relation whose
`from` or `to` equals the id. -/
def cascadeStep (st : Store) (i : ObjId) : Store :=
  (relationsTouching (eraseObj st i) i).foldl (fun s rid => eraseObj s rid)
    (eraseObj st i)

/-- `WriteTransaction::remove_thesis` (src/write_transaction.rs:99-133),
indexed by fuel (the Rust function recurses through the store; the fuel
version lets the recursion be stated and its termination proved as claim
C4 demands).  If the id is present: (1) delete the object, (2+3) select
and plainly delete every relation whose `from` or `to` equals the id
(`cascadeStep`), (4) `where_referenced` and recursively `remove_thesis`
each result in order, propagating failure (`foldlM` over `Option` is the
source's `for` loop with `?`). -/
def removeThesisF : Nat → Store → ObjId → Option Store
  | 0, _, _ => none
  | fuel + 1, st, i =>
    if containsObj st i then
      (whereReferenced (cascadeStep st i) i).foldlM
        (fun s m => removeThesisF fuel s m) (cascadeStep st i)
    else some st

/-- The `for … { self.remove_thesis(…)? }` loop at the tail of
`remove_thesis` (src/write_transaction.rs:128-130), at a given fuel
level. -/
def removeListF (fuel : Nat) (st : Store) (ms : List ObjId) : Option Store :=
  ms.foldlM (fun s m => removeThesisF fuel s m) st

/-- `remove_thesis` with the fuel the termination theorem (C4) shows is
always sufficient. -/
def remove_thesis (st : Store) (i : ObjId) : Store :=
  (removeThesisF (st.length + 1) st i).getD st

/-- The observable error kinds of the write transaction (the code carries
`anyhow` messages; only the kind is modelled). -/
inductive WriteError where
  | duplicate
  | unsupportedKind
  | danglingReference
  | chestMissingObject
deriving DecidableEq, Repr

/-- `WriteTransaction::insert_thesis` (src/write_transaction.rs:29-70), the
id function abstracted: fail if the chest already contains the id; for a
relation, fail if the kind is not in the configured supported set, then
for `from` and `to` in order fail if the chest has no `content` at that
id; otherwise insert the document under the id. -/
def insert_thesis (idOf : Content → ObjId) (supported : List String)
    (st : Store) (t : Thesis) : Except WriteError Store :=
  let thesis_id := idOf t.content
  if containsObj st thesis_id then .error .duplicate
  else
    match t.content with
    | .relation r =>
      if !(supported.contains r.kind) then .error .unsupportedKind
      else if !(containsObj st r.fromId) then .error .danglingReference
      else if !(containsObj st r.toId) then .error .danglingReference
      else .ok (st ++ [(thesis_id, t)])
    | .text _ => .ok (st ++ [(thesis_id, t)])

/-- Replace the stored `alias` field of the object with this id
(`chest_transaction.update(thesis_id, path "alias", value)`). -/
def writeAlias (st : Store) (i : ObjId) (a : String) : Store :=
  st.map (fun e => if e.1 == i then (e.1, { e.2 with «alias» := some a }) else e)

/-- `WriteTransaction::set_alias` (src/write_transaction.rs:135-142): a
plain chest `update` of the `alias` field — no uniqueness check of any
kind; it fails only when the object itself is absent. -/
def set_alias (st : Store) (i : ObjId) (a : String) : Except WriteError Store :=
  if containsObj st i then .ok (writeAlias st i a)
  else .error .chestMissingObject

/-- Replace the stored `tags` array of the object with this id. -/
def writeTags (st : Store) (i : ObjId) (ts : List String) : Store :=
  st.map (fun e => if e.1 == i then (e.1, { e.2 with tags := ts }) else e)

/-- The tags of the stored thesis with this id (empty when absent). -/
def storedTags (st : Store) (i : ObjId) : List String :=
  ((st.find? (fun e => e.1 == i)).map (·.2.tags)).getD []

/-- `WriteTransaction::tag_thesis` (src/write_transaction.rs:72-85):
`contains_element` on the `tags` array, `push` only when absent.  Both
chest calls fail when the object is absent. -/
def tag_thesis (st : Store) (i : ObjId) (tag : String) : Except WriteError Store :=
  match st.find? (fun e => e.1 == i) with
  | none => .error .chestMissingObject
  | some e =>
    if e.2.tags.contains tag then .ok st
    else .ok (writeTags st i (e.2.tags ++ [tag]))

/-- `WriteTransaction::untag_thesis` (src/write_transaction.rs:87-97):
`get_element_index` (the first index of the value in the array), then
`remove` at that index; no-op when the tag is absent. -/
def untag_thesis (st : Store) (i : ObjId) (tag : String) : Except WriteError Store :=
  match st.find? (fun e => e.1 == i) with
  | none => .error .chestMissingObject
  | some e =>
    match e.2.tags.indexOf? tag with
    | none => .ok st
    | some idx => .ok (writeTags st i (e.2.tags.eraseIdx idx))

/-! ### The command DSL parser (src/commands.rs)

`commands.rs` belongs to a generation of the crate in which `Text` is a
plain string wrapper (`Text(lines[1].to_string())`, commands.rs:203) and
commands carry `ThesisReference`s; it is modelled on its own terms.  The
`anyhow` error messages are modelled as an error kind. -/

/-- Is `c` in the `[A-Za-z0-9-_]` class (the id alphabet of the regexes in
commands.rs:47 and the URL-safe base64 alphabet)? -/
def isB64Char (c : Char) : Bool :=
  ('A' ≤ c && c ≤ 'Z') || ('a' ≤ c && c ≤ 'z') || ('0' ≤ c && c ≤ '9')
    || c == '-' || c == '_'

/-- Can `s` deserialize as an `ObjectId` (a 22-character base64url
string)?  serde parsing of the textual id form is external trove code;
it is modelled as this shape check. -/
def isIdString (s : String) : Bool := s.data.length == 22 && s.data.all isB64Char

/-- Is `s` the canonical 22-character base64url text form of a 16-byte
`ObjectId`?  128 bits fill 21 full characters and the top two bits of the
22nd, so the final character's low four bits must be zero: exactly on
these strings does the external serde decode re-encode to the same
string, so only on them may an id be carried textually. -/
def isCanonicalId (s : String) : Bool :=
  isIdString s && b64Val (s.data.getLastD 'A') % 16 == 0

/-- `Alias::validated` (src/alias.rs:9-25): the regex `^\S+$`. -/
def aliasValidated (s : String) : Bool :=
  !s.data.isEmpty && s.data.all (fun c => !c.isWhitespace)

/-- A word character, `\w` of the Rust regexes (approximated by ASCII
letters, digits, underscore and the Cyrillic block; the full Unicode
word-character table is regex-crate data external to the model). -/
def isWordChar (c : Char) : Bool :=
  c.isDigit || ('A' ≤ c && c ≤ 'Z') || ('a' ≤ c && c ≤ 'z') || c == '_'
    || (Char.ofNat 0x400 ≤ c && c ≤ Char.ofNat 0x4FF)

/-- A `RawText` character (src/text.rs:17, regex
`^[0-9\p{Script=Cyrillic}\p{Script=Latin}\s,\-\:\."']+$`; the two script
classes are approximated by the ASCII letters and the Cyrillic block). -/
def isRawTextChar (c : Char) : Bool :=
  c.isDigit || ('A' ≤ c && c ≤ 'Z') || ('a' ≤ c && c ≤ 'z')
    || (Char.ofNat 0x400 ≤ c && c ≤ Char.ofNat 0x4FF)
    || c.isWhitespace || c == ',' || c == '-' || c == ':' || c == '.'
    || c == '\'' || c == '"'

/-- `RawText::validated` (src/text.rs:14-31): the whole string matches the
`RawText` class, one or more characters. -/
def rawTextValidated (s : String) : Bool :=
  !s.data.isEmpty && s.data.all isRawTextChar

/-- `Tag::validate` (src/tag.rs:9-25): regex `^\w+$`. -/
def tagValidated (s : String) : Bool := !s.data.isEmpty && s.data.all isWordChar

/-- `RelationKind::validate` (src/relation.rs:10-25): regex `^[\w\s]+$`. -/
def kindValidated (s : String) : Bool :=
  !s.data.isEmpty && s.data.all (fun c => isWordChar c || c.isWhitespace)

namespace Cmds

/-- `paragraph.split('\n')` (commands.rs:178). -/
def splitLines : List Char → List (List Char)
  | [] => [[]]
  | c :: cs =>
    if c = '\n' then [] :: splitLines cs
    else
      match splitLines cs with
      | l :: ls => (c :: l) :: ls
      | [] => [[c]]

/-- The first-line regex of the command parser (commands.rs:180):
`^ *(\+|-|#|\^) +([^ ]+) *$`.  Returns the contents of the two capture
groups: the operation character and the mandatory second token.  (`[^ ]+`
can absorb no space, and the only characters a backtracking engine could
re-distribute are spaces, so the match is: optional spaces, one operation
character, at least one space, a maximal run of non-space characters,
then only spaces.) -/
def matchFirstLine (cs : List Char) : Option (Char × List Char) :=
  match cs.dropWhile (fun c => c == ' ') with
  | c :: rest =>
    if c = '+' || c = '-' || c = '#' || c = '^' then
      match rest with
      | c2 :: rest2 =>
        if c2 = ' ' then
          if ((rest2.dropWhile (fun c => c == ' ')).takeWhile
              (fun c => c != ' ')).isEmpty then none
          else if ((rest2.dropWhile (fun c => c == ' ')).dropWhile
              (fun c => c != ' ')).all (fun c => c == ' ') then
            some (c, (rest2.dropWhile (fun c => c == ' ')).takeWhile
              (fun c => c != ' '))
          else none
        else none
      | [] => none
    else none
  | [] => none

/-- The first-line shape claim C7 asserts:
`^ *(?<op>[+\-#^@])( +(?<alias>\S+))? *$` — operation character drawn
from `+ - # ^ @`, alias group optional.  This definition follows the
claim's words, for comparison with `matchFirstLine` which follows the
code. -/
def claimFirstLineAccepts (cs : List Char) : Bool :=
  match cs.dropWhile (fun c => c == ' ') with
  | c :: rest =>
    (c == '+' || c == '-' || c == '#' || c == '^' || c == '@') &&
      (rest.all (fun c => c == ' ') ||
        (match rest with
         | c2 :: rest2 =>
           c2 == ' ' &&
             (let rest3 := rest2.dropWhile (fun c => c == ' ')
              let tok := rest3.takeWhile (fun c => !c.isWhitespace)
              let rest4 := rest3.dropWhile (fun c => !c.isWhitespace)
              !tok.isEmpty && rest4.all (fun c => c == ' '))
         | [] => false))
  | [] => false

/-- `ThesisReference` (commands.rs:37-41). -/
inductive ThesisReference where
  | «alias» (a : String)
  | objectId (i : ObjId)
deriving DecidableEq, Repr

/-- The `Content` of the commands.rs generation: `Text` is a plain string
wrapper (commands.rs:203). -/
inductive CContent where
  | text (s : String)
  | relation (fromId toId : ObjId) (kind : String)
deriving DecidableEq, Repr

/-- `Command` (commands.rs:66-104), with each payload struct inlined. -/
inductive Command where
  | addTextThesis («alias» : Option String) (text : String)
  | addRelationThesis («alias» : Option String) (fromRef : ThesisReference)
      (kind : String) (toRef : ThesisReference)
  | removeThesis (thesis_id : ObjId)
  | addTag (thesis_reference : ThesisReference) (tag : String)
  | removeTag (thesis_id : ObjId) (tag : String)
deriving DecidableEq, Repr

/-- The observable error kinds of the command parser. -/
inductive ParseError where
  | badFirstLine
  | badCombination
  | invalidCommand
  | unknownReference
  | badId
deriving DecidableEq, Repr

/-- `ThesisReference::new` (commands.rs:44-53): any `^\S+$` token is an
alias; otherwise it must deserialize as an id. -/
def thesisReferenceNew (s : String) : Except ParseError ThesisReference :=
  if aliasValidated s then .ok (.«alias» s)
  else if isIdString s then .ok (.objectId s)
  else .error .badId

/-- `ThesisReference::validated` (commands.rs:55-63). -/
def refValidated : ThesisReference → Bool
  | .«alias» a => aliasValidated a
  | .objectId _ => true

/-- `Command::validated` (commands.rs:107-131). -/
def commandValidated : Command → Bool
  | .addTextThesis a t =>
      (match a with | some s => aliasValidated s | none => true) && rawTextValidated t
  | .addRelationThesis a _ k _ =>
      (match a with | some s => aliasValidated s | none => true) && kindValidated k
  | .removeThesis _ => true
  | .addTag r t => refValidated r && tagValidated t
  | .removeTag _ t => tagValidated t

/-- `CommandsIterator::get_thesis_id` (commands.rs:164-169): aliases
resolve through the in-batch map, ids pass through. -/
def getThesisId (aliases : List (String × ObjId)) : ThesisReference → Option ObjId
  | .«alias» a => (aliases.find? (fun p => p.1 == a)).map (·.2)
  | .objectId i => some i

/-- `BTreeMap::insert`: the new binding shadows an existing one. -/
def aliasInsert (aliases : List (String × ObjId)) (a : String) (i : ObjId) :
    List (String × ObjId) :=
  (a, i) :: aliases.filter (fun p => p.1 != a)

/-- One step of `CommandsIterator::next` (commands.rs:176-258) on a single
paragraph, with the in-batch alias map threaded and `Content::id`
abstracted as `idOf`.  NOTE the faithfully modelled slip of the source:
`alias_option` is built from `captures.get(1)` — the operation-character
group of the regex — so it is always `Some(<operation char>)`; the second
capture group (the alias token) is never read. -/
def parseParagraph (idOf : CContent → ObjId) (aliases : List (String × ObjId))
    (paragraph : String) : Except ParseError (Command × List (String × ObjId)) :=
  let lines := splitLines paragraph.data
  match matchFirstLine (lines.headD []) with
  | none => .error .badFirstLine
  | some (operation_char, _aliasToken) =>
    let alias_option : Option String := some (String.mk [operation_char])
    if !(match alias_option with | some a => aliasValidated a | none => true) then
      .error .badFirstLine
    else
      match operation_char, lines.length with
      | '+', 2 =>
        let text := String.mk (lines.getD 1 [])
        let aliases' :=
          match alias_option with
          | some a => aliasInsert aliases a (idOf (.text text))
          | none => aliases
        let cmd := Command.addTextThesis alias_option text
        if commandValidated cmd then .ok (cmd, aliases') else .error .invalidCommand
      | '+', 4 =>
        match thesisReferenceNew (String.mk (lines.getD 1 [])) with
        | .error e => .error e
        | .ok fromRef =>
          let kind := String.mk (lines.getD 2 [])
          match thesisReferenceNew (String.mk (lines.getD 3 [])) with
          | .error e => .error e
          | .ok toRef =>
            match alias_option with
            | some a =>
              match getThesisId aliases fromRef, getThesisId aliases toRef with
              | some fromId, some toId =>
                let cmd := Command.addRelationThesis alias_option fromRef kind toRef
                if commandValidated cmd then
                  .ok (cmd, aliasInsert aliases a (idOf (.relation fromId toId kind)))
                else .error .invalidCommand
              | _, _ => .error .unknownReference
            | none =>
              let cmd := Command.addRelationThesis alias_option fromRef kind toRef
              if commandValidated cmd then .ok (cmd, aliases) else .error .invalidCommand
      | '-', 2 =>
        let idStr := String.mk (lines.getD 1 [])
        if isIdString idStr then
          let cmd := Command.removeThesis idStr
          if commandValidated cmd then .ok (cmd, aliases) else .error .invalidCommand
        else .error .badId
      | '#', 3 =>
        match thesisReferenceNew (String.mk (lines.getD 1 [])) with
        | .error e => .error e
        | .ok r =>
          let cmd := Command.addTag r (String.mk (lines.getD 2 []))
          if commandValidated cmd then .ok (cmd, aliases) else .error .invalidCommand
      | '^', 3 =>
        let idStr := String.mk (lines.getD 1 [])
        if isIdString idStr then
          let cmd := Command.removeTag idStr (String.mk (lines.getD 2 []))
          if commandValidated cmd then .ok (cmd, aliases) else .error .invalidCommand
        else .error .badId
      | _, _ => .error .badCombination

end Cmds

/-! ### `Text::new` — parsing text with inline references (src/text.rs:44-107)

The reference regex (src/text.rs:47) is
`\[(:?([A-Za-z0-9-_]{22})|([^\[\]]+))\]`.  Note the `(:?…)` — the group is
*capturing* and starts with an optional literal colon; group 2 is the
22-character id, group 3 the alias token.  `captures_iter` yields
successive leftmost non-overlapping matches; for this regex a match at a
position is determined as `matchAt` computes it: a literal `[`, then
either (first alternative, preferred) an optional `:` followed by exactly
22 id-alphabet characters followed by `]`, or (second alternative) a
maximal non-empty run of non-bracket characters followed by `]` (the run
cannot be shortened usefully because no character inside it is `]`). -/

namespace TextP

/-- A captured reference token: group 2 (an id) or group 3 (an alias). -/
inductive Tok where
  | id (s : String)
  | al (s : String)
deriving DecidableEq, Repr

/-- Try `([A-Za-z0-9-_]{22})\]` at the head of `cs`; on success return the
captured 22 characters and the characters after the `]`. -/
def take22Id (cs : List Char) : Option (String × List Char) :=
  if (cs.take 22).length = 22 && (cs.take 22).all isB64Char then
    match cs.drop 22 with
    | c :: rest => if c = ']' then some (String.mk (cs.take 22), rest) else none
    | [] => none
  else none

/-- The first (preferred) regex alternative `:?([A-Za-z0-9-_]{22})` applied
after the opening bracket: a greedy optional colon, then the 22-character
id capture, then the closing bracket (for an empty remainder both
alternatives fail, as `take22Id` of an empty list is `none`). -/
def idAlt (inner : List Char) : Option (Tok × List Char) :=
  match inner with
  | c2 :: inner2 =>
    if c2 = ':' then (take22Id inner2).map (fun p => (Tok.id p.1, p.2))
    else (take22Id inner).map (fun p => (Tok.id p.1, p.2))
  | [] => none

/-- Match the reference regex at the head of `cs`: `[`, then the id
alternative, else the alias alternative `([^\[\]]+)` — a maximal
non-empty bracket-free run — followed by `]`. -/
def matchAt (cs : List Char) : Option (Tok × List Char) :=
  match cs with
  | [] => none
  | c :: inner =>
    if c = '[' then
      match idAlt inner with
      | some res => some res
      | none =>
        if (inner.takeWhile (fun c => c != '[' && c != ']')).isEmpty then none
        else
          match inner.drop (inner.takeWhile (fun c => c != '[' && c != ']')).length with
          | c2 :: rest =>
            if c2 = ']' then
              some (Tok.al
                (String.mk (inner.takeWhile (fun c => c != '[' && c != ']'))), rest)
            else none
          | [] => none
    else none

/-- The leftmost match of the reference regex in `cs`: the text before the
match, the captured token, and the characters after the match. -/
def findRef : List Char → Option (List Char × Tok × List Char)
  | [] => none
  | c :: cs =>
    match matchAt (c :: cs) with
    | some (t, rest) => some ([], t, rest)
    | none => (findRef cs).map (fun p => (c :: p.1, p.2.1, p.2.2))

/-- All matches of `captures_iter` with the text spans between them, plus
the remainder after the last match; fuel-indexed (each match consumes at
least three characters, so `length + 1` fuel always suffices). -/
def scanRefsF : Nat → List Char → List (List Char × Tok) × List Char
  | 0, cs => ([], cs)
  | fuel + 1, cs =>
    match findRef cs with
    | none => ([], cs)
    | some (pre, t, rest) =>
      let pr := scanRefsF fuel rest
      ((pre, t) :: pr.1, pr.2)

/-- `captures_iter` over the whole input. -/
def scanRefs (cs : List Char) : List (List Char × Tok) × List Char :=
  scanRefsF (cs.length + 1) cs

/-- How `Text::new` turns one captured token into a stored reference
(src/text.rs:70-96): a group-2 id deserializes directly (external serde;
on the canonical forms `isCanonicalId` — the only id tokens `okTok`
admits — the decode re-encodes to the same string, so the id is carried
textually); a group-3 alias goes through
`AliasesResolver::get_thesis_id_by_reference`, modelled as the function
`resolver`. -/
def resolveTok (resolver : String → Option ObjId) : Tok → Option ObjId
  | .id s => some s
  | .al a => resolver a

/-- `Text::new` (src/text.rs:44-107): scan the input for reference
matches; each non-empty text span before a match becomes a raw part, each
token a reference (aborting on an unresolvable alias), the first match
starting at offset 0 sets `start_with_reference`, and a non-empty
remainder becomes a final raw part. -/
def TextNew (input : String) (resolver : String → Option ObjId) : Option Text :=
  let pr := scanRefs input.data
  match (pr.1.map (·.2)).mapM (resolveTok resolver) with
  | none => none
  | some refs =>
    some
      { raw_text_parts :=
          ((pr.1.map (·.1)).filter (fun l => !l.isEmpty)).map (fun l => String.mk l)
            ++ (if pr.2.isEmpty then [] else [String.mk pr.2])
        references := refs
        start_with_reference :=
          match pr.1 with
          | [] => false
          | (pre, _) :: _ => pre.isEmpty }

/-! #### The valid source texts of claim C2

A source text interleaving raw spans and bracketed references, in the
canonical shape: an optional leading reference, then (raw span,
reference) pairs, then an optional trailing raw span — i.e. strict
alternation, which is what "RawText segments interleaved with bracketed
references" describes.  The definitions below state the claim's
hypothesis; `renderSource` produces the concrete input string fed to
`Text::new`. -/

/-- A valid source text: `lead? (raw ref)* trail?` with strict
alternation. -/
structure Source where
  lead : Option Tok
  body : List (String × Tok)
  trail : Option String

/-- A reference as written in the source: `[token]`. -/
def renderTok : Tok → List Char
  | .id s => '[' :: (s.data ++ [']'])
  | .al a => '[' :: (a.data ++ [']'])

/-- The source text as a character list. -/
def renderSource (src : Source) : List Char :=
  (match src.lead with | some t => renderTok t | none => [])
    ++ (src.body.map (fun p => p.1.data ++ renderTok p.2)).flatten
    ++ (match src.trail with | some r => r.data | none => [])

/-- A raw span is valid when non-empty and bracket-free (every `RawText`
by definition contains no brackets; the round trip needs nothing more). -/
def okRaw (s : String) : Bool :=
  !s.data.isEmpty && s.data.all (fun c => c != '[' && c != ']')

/-- Would this alias token be captured by the id alternative of the regex
(exactly 22 id characters, or a colon followed by exactly 22)? -/
def pseudoId (a : String) : Bool :=
  (a.data.length == 22 && a.data.all isB64Char) ||
    (match a.data with
     | ':' :: t => t.length == 22 && t.all isB64Char
     | _ => false)

/-- A token valid in the *amended* sense of claim C2: ids are canonical
22-character `ObjectId` text forms (so the external serde decode/encode
round trip really is the textual identity on them), and aliases are
non-empty, bracket-free, and not shaped like the id capture — an alias
that is, such as a colon followed by 22 id characters, is swallowed by
the `(:?` slip of the regex and the round trip fails on it (see
`C2_counterexample`). -/
def okTok : Tok → Bool
  | .id s => isCanonicalId s
  | .al a =>
      !a.data.isEmpty && a.data.all (fun c => c != '[' && c != ']') && !(pseudoId a)

/-- Validity of a whole source text in the amended sense of claim C2. -/
def okSource (src : Source) : Bool :=
  (match src.lead with | some t => okTok t | none => true)
    && src.body.all (fun p => okRaw p.1 && okTok p.2)
    && (match src.trail with | some r => okRaw r | none => true)

/-- Token validity as the specification words it (claim side of C2): a
reference token is a 22-character id, or *any* non-empty bracket-free
alias string — no further restriction. -/
def specOkTok : Tok → Bool
  | .id s => isIdString s
  | .al a => !a.data.isEmpty && a.data.all (fun c => c != '[' && c != ']')

/-- Validity of a whole source text by the specification's words (claim
side of C2). -/
def specOkSource (src : Source) : Bool :=
  (match src.lead with | some t => specOkTok t | none => true)
    && src.body.all (fun p => okRaw p.1 && specOkTok p.2)
    && (match src.trail with | some r => okRaw r | none => true)

/-- Every alias token of the source resolves. -/
def resolvesAll (resolver : String → Option ObjId) (src : Source) : Bool :=
  (match src.lead with | some t => (resolveTok resolver t).isSome | none => true)
    && src.body.all (fun p => (resolveTok resolver p.2).isSome)

/-- The id-form of a token: the 22-character id it denotes, bracketed. -/
def renderIdTok (resolver : String → Option ObjId) (t : Tok) : List Char :=
  '[' :: (((resolveTok resolver t).getD "").data ++ [']'])

/-- The id-form of the source (claim C2): the source text with every
bracketed alias replaced by the bracketed id it resolves to. -/
def renderIdSource (resolver : String → Option ObjId) (src : Source) : List Char :=
  (match src.lead with | some t => renderIdTok resolver t | none => [])
    ++ (src.body.map (fun p => p.1.data ++ renderIdTok resolver p.2)).flatten
    ++ (match src.trail with | some r => r.data | none => [])

end TextP

/-! ### Concrete fixtures used by witnesses and counterexamples -/

/-- A text thesis with the given parts and references. -/
def mkTextThesis (a : Option String) (parts : List String) (refs : List ObjId) :
    Thesis :=
  { «alias» := a
    content := .text { raw_text_parts := parts, references := refs,
                       start_with_reference := false }
    tags := [] }

/-- A relation thesis. -/
def mkRelThesis (a : Option String) (f t k : ObjId) : Thesis :=
  { «alias» := a, content := .relation { fromId := f, toId := t, kind := k }, tags := [] }

/-- C10's scenario: theses `A` and `B`, a relation `R` between them, and a
text thesis `T` whose only reference is the *relation's* id `R`. -/
def c10Store : Store :=
  [("A", mkTextThesis none ["a"] []),
   ("B", mkTextThesis none ["b"] []),
   ("R", mkRelThesis none "A" "B" "supports"),
   ("T", mkTextThesis none ["t"] ["R"])]

/-- C3's counterexample store: a single text thesis whose references
mention the id `M`, which is not stored. -/
def c3Store : Store :=
  [("T", mkTextThesis none ["x"] ["M"])]

/-- C3's witness store: `A` and `B` stored, a relation between them and a
text thesis referencing `A`. -/
def c3WitnessStore : Store :=
  [("A", mkTextThesis none ["a"] []),
   ("B", mkTextThesis none ["b"] []),
   ("R", mkRelThesis none "A" "B" "supports"),
   ("T", mkTextThesis none ["t"] ["A"])]

/-- A concrete id function for evaluating the store model: the first raw
part of a text, a constant for relations (contents used in the concrete
scenarios are distinguished by their first part). -/
def demoIdOf : Content → ObjId
  | .text t => t.raw_text_parts.headD ""
  | .relation _ => "rel"

/-- C5's scenario, step 1: two theses with distinct aliases, inserted into
an empty store. -/
def c5Thesis1 : Thesis := mkTextThesis (some "x") ["1"] []

/-- C5's scenario, second thesis. -/
def c5Thesis2 : Thesis := mkTextThesis (some "y") ["2"] []

/-- The store holding both C5 theses (the result of the two inserts). -/
def c5Store : Store := [("1", c5Thesis1), ("2", c5Thesis2)]

/-- C9's witness store: one thesis with tags `["p", "q"]`. -/
def c9Store : Store :=
  [("A", { «alias» := none, content := (mkTextThesis none ["a"] []).content,
           tags := ["p", "q"] })]

/-- The thesis's alias field (accessor; the field name `alias` is a Lean
keyword and needs quoting at use sites). -/
def thesisAlias (t : Thesis) : Option String := t.«alias»

/-- `insert_thesis` exactly as claim C6 words it: fail `Duplicate` if a
thesis with id `t.id()` is already stored; when the content is a
`Relation`, fail `UnsupportedKind` if the kind is not in the configured
supported set and `DanglingReference` if either `from` or `to` is not a
stored thesis; otherwise store the thesis under `t.id()`.  (An error
leaves the state unchanged — `Except.error` carries no store.)  This
definition follows the claim's words, for comparison with
`insert_thesis`, which follows the code. -/
def insertPerClaim (idOf : Content → ObjId) (supported : List String)
    (st : Store) (t : Thesis) : Except WriteError Store :=
  if containsObj st (idOf t.content) then .error .duplicate
  else
    match t.content with
    | .relation r =>
      if !(supported.contains r.kind) then .error .unsupportedKind
      else if !(containsObj st r.fromId) || !(containsObj st r.toId) then
        .error .danglingReference
      else .ok (st ++ [(idOf t.content, t)])
    | .text _ => .ok (st ++ [(idOf t.content, t)])

/-- The line shape actually accepted by the command parser's first-line
regex `^ *(\+|-|#|\^) +([^ ]+) *$`: optional spaces, one operation
character among `+ - # ^`, at least one space, a non-empty space-free
token, optional trailing spaces. -/
def FirstLineShape (cs : List Char) : Prop :=
  ∃ (n m k : Nat) (op : Char) (tok : List Char),
    cs = List.replicate n ' ' ++ op :: (List.replicate (m + 1) ' ' ++ tok
          ++ List.replicate k ' ')
      ∧ (op = '+' ∨ op = '-' ∨ op = '#' ∨ op = '^')
      ∧ tok ≠ [] ∧ ∀ c ∈ tok, c ≠ ' '

/-- C4's cyclic scenario (spec S6): two text theses referencing each
other by id. -/
def c4CycStore : Store :=
  [("X", mkTextThesis none ["x"] ["Y"]),
   ("Y", mkTextThesis none ["y"] ["X"])]

/-- C2's witness source text: `hello [w] end`. -/
def c2WitnessSource : TextP.Source :=
  { lead := none, body := [("hello ", .al "w")], trail := some " end" }

/-- C2's witness resolver: alias `w` resolves to a canonical id. -/
def c2WitnessResolver : String → Option ObjId :=
  fun a => if a = "w" then some "QQQQQQQQQQQQQQQQQQQQQQ" else none

/-- C2's counterexample source: the single reference
`[:QQQQQQQQQQQQQQQQQQQQQQ]` — a colon followed by 22 id characters is a
perfectly good alias by the specification's words. -/
def c2CexSource : TextP.Source :=
  { lead := some (.al ":QQQQQQQQQQQQQQQQQQQQQQ"), body := [], trail := none }

/-- C2's counterexample resolver: the alias resolves, to an id distinct
from the 22 characters following the colon. -/
def c2CexResolver : String → Option ObjId :=
  fun a =>
    if a = ":QQQQQQQQQQQQQQQQQQQQQQ" then some "AAAAAAAAAAAAAAAAAAAAAA" else none

/-- The `Text` the program actually builds from the counterexample
source: the colon is dropped and the 22 characters are stored as an id
reference, the resolver never consulted. -/
def c2CexText : Text :=
  { raw_text_parts := [], references := ["QQQQQQQQQQQQQQQQQQQQQQ"],
    start_with_reference := true }

/-! ## Theorems -/

/-- C1 (counterexample): for the text content with the single raw part
`"a"`, the byte string `Content::id` hashes (the UTF-8 bytes of the
composed string, `[97]`) is not the canonical encoding the claim
describes (discriminator byte 0 followed by `u64_le`-length-prefixed
fields), so `content_id` is not the xxh3-128 hash of that canonical
encoding. -/
theorem C1_counterexample :
    contentIdSource (Content.text ⟨["a"], [], false⟩) ≠
      specCanonicalEncode (Content.text ⟨["a"], [], false⟩) := by decide

/-- C1 (amended): `content_id(c)` is the big-endian xxh3-128 hash of: for
`Text`, the UTF-8 bytes of the composed string; for `Relation`, the
bincode standard-config encoding of the `Relation` struct — `from`'s and
`to`'s 16 raw bytes followed by the kind with a varint (not `u64_le`)
length prefix, with no enum discriminator anywhere. -/
theorem C1_amended_encoding : ∀ c : Content, contentIdSource c = amendedIdEncoding c := by
  intro c
  cases c with
  | text t => rfl
  | relation r =>
    simp [contentIdSource, amendedIdEncoding, bincodeRelation, bincodeString,
      List.append_assoc]

/-- C10: cascade removal does not propagate through relations.  In
`c10Store`, removing `A` deletes the relation `R` (endpoint `A`) with a
plain object delete; the text thesis `T`, whose references consist of
exactly `["R"]`, is still stored afterwards. -/
theorem C10_relation_delete_not_recursive :
    (mkTextThesis none ["t"] ["R"]).content =
        Content.text ⟨["t"], ["R"], false⟩ ∧
    containsObj (remove_thesis c10Store "A") "R" = false ∧
    containsObj (remove_thesis c10Store "A") "T" = true ∧
    textRefs (mkTextThesis none ["t"] ["R"]) "R" = true := by decide

/-- C3 (counterexample): `remove_thesis` of an id that is not stored is a
no-op, so a store holding a text thesis with the dangling reference `M`
still holds it — with `M` among its references — after
`remove_thesis("M")` returns successfully.  The claim's
"for every stored state and every id" is therefore false. -/
theorem C3_counterexample :
    remove_thesis c3Store "M" = c3Store ∧
    ∃ e ∈ remove_thesis c3Store "M", textRefs e.2 "M" = true := by decide

/-- C8: the code slip `captures.get(1)` (commands.rs:186-188) makes the
produced `AddThesis` command carry the *operation character* `"+"` as its
alias, not the alias token `a` of the first line, and records the
in-batch binding under `"+"` as well — for any id function. -/
theorem C8_alias_is_operation_char (idOf : Cmds.CContent → ObjId) :
    Cmds.parseParagraph idOf [] "+ a\nHello world." =
      .ok (Cmds.Command.addTextThesis (some "+") "Hello world.",
           [("+", idOf (.text "Hello world."))]) := by rfl

/-- C7 (counterexample): the claim's shape (operation characters
`+ - # ^ @`, alias group optional) accepts the lines `"+"` and `"@ x"`,
but the code's regex `^ *(\+|-|#|\^) +([^ ]+) *$` rejects both (the
token is mandatory and `@` is not an operation), and the paragraph fails. -/
theorem C7_counterexample :
    Cmds.claimFirstLineAccepts "+".data = true ∧
    Cmds.matchFirstLine "+".data = none ∧
    Cmds.claimFirstLineAccepts "@ x".data = true ∧
    Cmds.matchFirstLine "@ x".data = none ∧
    Cmds.parseParagraph (fun _ => "") [] "+\nHello." =
      .error .badFirstLine :=
  ⟨by decide, by decide, by decide, by decide, rfl⟩

/-- C5 (counterexample): starting from the empty store, both inserts
succeed; `set_alias` then moves alias `"x"` onto the second thesis
*without failing* although the first live thesis already holds `"x"` —
afterwards two live theses hold the alias `"x"`.  The claimed
`AliasInUse` failure does not exist. -/
theorem C5_counterexample :
    insert_thesis demoIdOf ["supports"] [] c5Thesis1 = .ok [("1", c5Thesis1)] ∧
    insert_thesis demoIdOf ["supports"] [("1", c5Thesis1)] c5Thesis2 = .ok c5Store ∧
    set_alias c5Store "2" "x" =
      .ok [("1", c5Thesis1), ("2", { c5Thesis2 with «alias» := some "x" })] ∧
    ((writeAlias c5Store "2" "x").filter
        (fun e => thesisAlias e.2 == some "x")).length = 2 :=
  ⟨rfl, rfl, rfl, by decide⟩

/-! ### Cascade removal: helper lemmas -/

theorem eraseObj_sublist (st : Store) (i : ObjId) : List.Sublist (eraseObj st i) st :=
  List.filter_sublist _

theorem foldl_erase_sublist (l : List ObjId) (st : Store) :
    List.Sublist (l.foldl (fun s rid => eraseObj s rid) st) st := by
  induction l generalizing st with
  | nil => exact List.Sublist.refl st
  | cons a l ih => exact (ih (eraseObj st a)).trans (eraseObj_sublist st a)

theorem cascadeStep_sublist (st : Store) (i : ObjId) : List.Sublist (cascadeStep st i) st :=
  (foldl_erase_sublist _ _).trans (eraseObj_sublist st i)

theorem containsObj_iff {st : Store} {i : ObjId} :
    containsObj st i = true ↔ ∃ e ∈ st, e.1 = i := by
  simp [containsObj, List.any_eq_true]

theorem containsObj_mono {st' st : Store} (h : List.Sublist st' st) {i : ObjId}
    (hc : containsObj st' i = true) : containsObj st i = true := by
  rw [containsObj_iff] at hc ⊢
  obtain ⟨e, he, hei⟩ := hc
  exact ⟨e, h.mem he, hei⟩

theorem containsObj_eraseObj (st : Store) (i : ObjId) :
    containsObj (eraseObj st i) i = false := by
  simp [containsObj, eraseObj, List.any_eq_true, List.mem_filter]

theorem eraseObj_length_lt {st : Store} {i : ObjId}
    (h : containsObj st i = true) : (eraseObj st i).length < st.length := by
  rw [containsObj_iff] at h
  obtain ⟨e, he, hei⟩ := h
  have hs := eraseObj_sublist st i
  rcases Nat.lt_or_ge (eraseObj st i).length st.length with hlt | hge
  · exact hlt
  · exfalso
    have heq : eraseObj st i = st := hs.eq_of_length (Nat.le_antisymm hs.length_le hge)
    have : e ∈ eraseObj st i := by rw [heq]; exact he
    simp [eraseObj, List.mem_filter, hei] at this

theorem cascadeStep_length_lt {st : Store} {i : ObjId}
    (h : containsObj st i = true) : (cascadeStep st i).length < st.length :=
  Nat.lt_of_le_of_lt (List.Sublist.length_le (foldl_erase_sublist _ _))
    (eraseObj_length_lt h)

theorem mem_foldl_erase {l : List ObjId} {st : Store} {e : ObjId × Thesis}
    (h : e ∈ l.foldl (fun s rid => eraseObj s rid) st) : e ∈ st ∧ e.1 ∉ l := by
  induction l generalizing st with
  | nil => simpa using h
  | cons a l ih =>
    obtain ⟨h1, h2⟩ := ih h
    have h3 : e ∈ st := (eraseObj_sublist st a).mem h1
    have h4 : e.1 ≠ a := by
      simp [eraseObj, List.mem_filter] at h1
      simpa using h1.2
    simp [h3, h2, h4]

/-- No entry surviving `cascadeStep st i` is a relation touching `i`. -/
theorem cascadeStep_no_touches {st : Store} {i : ObjId} {e : ObjId × Thesis}
    (he : e ∈ cascadeStep st i) : touches e.2 i = false := by
  obtain ⟨h1, h2⟩ := mem_foldl_erase he
  by_contra hb
  have ht : touches e.2 i = true := by
    cases hx : touches e.2 i with
    | false => exact absurd hx hb
    | true => rfl
  apply h2
  unfold relationsTouching
  unfold touches at ht
  cases hc : e.2.content with
  | text tx => rw [hc] at ht; cases ht
  | relation r =>
    rw [hc] at ht
    rcases Bool.or_eq_true_iff.mp ht with hf | htt
    · apply List.mem_append_left
      unfold relationIdsFrom
      exact List.mem_map_of_mem _ (List.mem_filter.mpr ⟨h1, by rw [hc]; exact hf⟩)
    · apply List.mem_append_right
      unfold relationIdsTo
      exact List.mem_map_of_mem _ (List.mem_filter.mpr ⟨h1, by rw [hc]; exact htt⟩)

theorem removeListF_nil (fuel : Nat) (st : Store) : removeListF fuel st [] = some st := rfl

theorem removeListF_cons (fuel : Nat) (st : Store) (m : ObjId) (ms : List ObjId) :
    removeListF fuel st (m :: ms) =
      (removeThesisF fuel st m).bind (fun st' => removeListF fuel st' ms) := by
  simp [removeListF, List.foldlM_cons]

theorem removeThesisF_succ (fuel : Nat) (st : Store) (i : ObjId) :
    removeThesisF (fuel + 1) st i =
      if containsObj st i then
        removeListF fuel (cascadeStep st i) (whereReferenced (cascadeStep st i) i)
      else some st := rfl

theorem removeListF_sublist_of (f : Nat)
    (ih : ∀ st i st', removeThesisF f st i = some st' → List.Sublist st' st) :
    ∀ ms st st', removeListF f st ms = some st' → List.Sublist st' st := by
  intro ms
  induction ms with
  | nil =>
    intro st st' h
    rw [removeListF_nil] at h
    injection h with h
    subst h
    exact List.Sublist.refl _
  | cons m ms ihm =>
    intro st st' h
    rw [removeListF_cons] at h
    cases hm : removeThesisF f st m with
    | none => rw [hm] at h; cases h
    | some st1 =>
      rw [hm] at h
      exact (ihm st1 st' h).trans (ih st m st1 hm)

theorem removeThesisF_sublist :
    ∀ fuel st i st', removeThesisF fuel st i = some st' → List.Sublist st' st := by
  intro fuel
  induction fuel with
  | zero => intro st i st' h; cases h
  | succ f ih =>
    intro st i st' h
    rw [removeThesisF_succ] at h
    by_cases hc : containsObj st i
    · rw [if_pos hc] at h
      exact (removeListF_sublist_of f ih _ _ _ h).trans (cascadeStep_sublist st i)
    · rw [if_neg hc] at h
      injection h with h
      subst h
      exact List.Sublist.refl _

theorem removeThesisF_not_contains :
    ∀ fuel st i st', removeThesisF fuel st i = some st' → containsObj st' i = false := by
  intro fuel st i st' h
  cases fuel with
  | zero => cases h
  | succ f =>
    rw [removeThesisF_succ] at h
    by_cases hc : containsObj st i
    · rw [if_pos hc] at h
      have hsub : List.Sublist st' (cascadeStep st i) :=
        removeListF_sublist_of f (removeThesisF_sublist f) _ _ _ h
      have hsub2 : List.Sublist st' (eraseObj st i) :=
        hsub.trans (foldl_erase_sublist _ _)
      cases hx : containsObj st' i with
      | false => rfl
      | true => exact absurd (containsObj_mono hsub2 hx) (by simp [containsObj_eraseObj])
    · rw [if_neg hc] at h
      injection h with h
      subst h
      simpa using hc

theorem removeListF_not_contains (f : Nat) :
    ∀ ms st st', removeListF f st ms = some st' →
      ∀ m ∈ ms, containsObj st' m = false := by
  intro ms
  induction ms with
  | nil => intro st st' _ m hm; cases hm
  | cons m0 ms ihm =>
    intro st st' h m hm
    rw [removeListF_cons] at h
    cases hm0 : removeThesisF f st m0 with
    | none => rw [hm0] at h; cases h
    | some st1 =>
      rw [hm0] at h
      rcases List.mem_cons.mp hm with rfl | hms
      · have h1 : containsObj st1 m = false := removeThesisF_not_contains f st m st1 hm0
        have hsub : List.Sublist st' st1 := removeListF_sublist_of f (removeThesisF_sublist f) _ _ _ h
        cases hx : containsObj st' m with
        | false => rfl
        | true => exact absurd (containsObj_mono hsub hx) (by simp [h1])
      · exact ihm st1 st' h m hms

/-- Core of C3 (amended): a successful `remove_thesis` of a *stored* id
leaves no stored relation touching it and no stored text referencing it. -/
theorem removeThesisF_cascade_sound (fuel : Nat) (st : Store) (i : ObjId)
    (st' : Store) (hc : containsObj st i = true)
    (h : removeThesisF fuel st i = some st') :
    ∀ e ∈ st', touches e.2 i = false ∧ textRefs e.2 i = false := by
  cases fuel with
  | zero => cases h
  | succ f =>
    rw [removeThesisF_succ, if_pos hc] at h
    intro e he
    have hsub : List.Sublist st' (cascadeStep st i) :=
      removeListF_sublist_of f (removeThesisF_sublist f) _ _ _ h
    have hestep : e ∈ cascadeStep st i := hsub.mem he
    refine ⟨cascadeStep_no_touches hestep, ?_⟩
    cases hx : textRefs e.2 i with
    | false => rfl
    | true =>
      exfalso
      have hmem : e.1 ∈ whereReferenced (cascadeStep st i) i := by
        unfold whereReferenced
        apply List.mem_append_left
        apply List.mem_append_left
        exact List.mem_map_of_mem _ (List.mem_filter.mpr ⟨hestep, hx⟩)
      have habs : containsObj st' e.1 = false :=
        removeListF_not_contains f _ _ _ h _ hmem
      have : containsObj st' e.1 = true := containsObj_iff.mpr ⟨e, he, rfl⟩
      rw [this] at habs
      cases habs

theorem removeListF_isSome_of (f : Nat)
    (ih : ∀ st i, st.length < f → (removeThesisF f st i).isSome = true) :
    ∀ ms st, st.length < f → (removeListF f st ms).isSome = true := by
  intro ms
  induction ms with
  | nil => intro st _; rfl
  | cons m ms ihm =>
    intro st hlen
    rw [removeListF_cons]
    have h1 := ih st m hlen
    cases hm : removeThesisF f st m with
    | none => rw [hm] at h1; cases h1
    | some st1 =>
      show (removeListF f st1 ms).isSome = true
      exact ihm st1
        (Nat.lt_of_le_of_lt (removeThesisF_sublist f st m st1 hm).length_le hlen)

theorem removeThesisF_isSome :
    ∀ fuel st i, st.length < fuel → (removeThesisF fuel st i).isSome = true := by
  intro fuel
  induction fuel with
  | zero => intro st i h; cases h
  | succ f ih =>
    intro st i h
    rw [removeThesisF_succ]
    by_cases hc : containsObj st i
    · rw [if_pos hc]
      apply removeListF_isSome_of f ih
      have h1 : (cascadeStep st i).length < st.length := cascadeStep_length_lt hc
      omega
    · rw [if_neg hc]; rfl

/-- C4: `remove_thesis` terminates on every finite store — the recursion,
run with fuel `|store| + 1`, never exhausts its fuel, because each
recursive level starts by deleting a stored object, so the store shrinks
strictly (a removed object cannot be rediscovered through the index).
In particular the cyclic store of spec scenario S6 (two text theses
referencing each other by id) is emptied by removing either. -/
theorem C4_remove_thesis_terminates :
    (∀ (st : Store) (i : ObjId), (removeThesisF (st.length + 1) st i).isSome = true)
      ∧ remove_thesis c4CycStore "X" = [] ∧ remove_thesis c4CycStore "Y" = [] :=
  ⟨fun st i => removeThesisF_isSome _ st i (Nat.lt_succ_self _), by decide, by decide⟩

/-- C3 (amended): for every store and every *stored* id, after
`remove_thesis(id)` no stored `Relation` thesis has `from == id` or
`to == id` and no stored `Text` thesis has `id` among its references:
relations touching the id are deleted by the index sweep and every text
thesis referencing it is removed by the transitive cascade.  (For an id
that is not stored, `remove_thesis` is a no-op and pre-existing dangling
references survive — see the counterexample.) -/
theorem C3_cascade_sound (st : Store) (i : ObjId)
    (hc : containsObj st i = true) :
    ∀ e ∈ remove_thesis st i, touches e.2 i = false ∧ textRefs e.2 i = false := by
  unfold remove_thesis
  cases hr : removeThesisF (st.length + 1) st i with
  | none =>
    have := removeThesisF_isSome (st.length + 1) st i (Nat.lt_succ_self _)
    rw [hr] at this
    cases this
  | some st' =>
    simpa using removeThesisF_cascade_sound _ st i st' hc hr

/-- Witness for C3's amended theorem at a concrete store: removing the
stored id `A` from `c3WitnessStore` leaves no relation touching `A` and
no text referencing `A`. -/
theorem C3_cascade_sound_witness :
    containsObj c3WitnessStore "A" = true ∧
    ∀ e ∈ remove_thesis c3WitnessStore "A",
      touches e.2 "A" = false ∧ textRefs e.2 "A" = false :=
  ⟨by decide, C3_cascade_sound c3WitnessStore "A" (by decide)⟩

/-- C5 (amended): `set_alias` performs no uniqueness check at all: for any
store and any stored id it succeeds unconditionally, overwriting the
thesis's `alias` field — even when another live thesis already holds the
same alias (alias uniqueness is *not* an invariant the write transaction
maintains; this is the spec's §9 open question). -/
theorem C5_set_alias_unchecked (st : Store) (i : ObjId) (a : String)
    (h : containsObj st i = true) :
    set_alias st i a = .ok (writeAlias st i a) := by
  simp [set_alias, h]

/-- Witness for C5's amended theorem: the overwrite that creates the
duplicate alias of the counterexample succeeds. -/
theorem C5_set_alias_unchecked_witness :
    containsObj c5Store "2" = true ∧
    set_alias c5Store "2" "x" = .ok (writeAlias c5Store "2" "x") :=
  ⟨by decide, C5_set_alias_unchecked c5Store "2" "x" (by decide)⟩

/-- C6: `insert_thesis` behaves exactly as the claim describes — fail
`Duplicate` when the id is already stored; for a `Relation`, fail
`UnsupportedKind` when the kind is not configured and `DanglingReference`
when either endpoint is absent; otherwise (and only then) append the
thesis under its content id.  Errors carry no store: nothing is inserted
on failure. -/
theorem C6_insert_thesis_spec (idOf : Content → ObjId) (supported : List String)
    (st : Store) (t : Thesis) :
    insert_thesis idOf supported st t = insertPerClaim idOf supported st t := by
  by_cases h1 : containsObj st (idOf t.content)
  · simp [insert_thesis, insertPerClaim, h1]
  · rcases hc : t.content with tx | r
    · simp [insert_thesis, insertPerClaim, h1, hc]
    · by_cases h2 : supported.contains r.kind
      · have h2' : r.kind ∈ supported := by simpa using h2
        by_cases h3 : containsObj st r.fromId
        · by_cases h4 : containsObj st r.toId
          · simp [insert_thesis, insertPerClaim, h1, hc, h2', h3, h4]
          · simp [insert_thesis, insertPerClaim, h1, hc, h2', h3, h4]
        · simp [insert_thesis, insertPerClaim, h1, hc, h2', h3]
      · have h2' : ¬(r.kind ∈ supported) := by simpa using h2
        simp [insert_thesis, insertPerClaim, h1, hc, h2']

/-! ### Tags (C9): helper lemmas -/

theorem find?_writeTags {st : Store} {i : ObjId} {e : ObjId × Thesis}
    (h : st.find? (fun p => p.1 == i) = some e) (ts : List String) :
    (writeTags st i ts).find? (fun p => p.1 == i) =
      some (e.1, { e.2 with tags := ts }) := by
  induction st with
  | nil => cases h
  | cons e0 st ih =>
    simp only [writeTags, List.map_cons]
    by_cases h0 : (e0.1 == i) = true
    · rw [@List.find?_cons_of_pos _ (fun p : ObjId × Thesis => p.1 == i) e0 st h0] at h
      injection h with h
      subst h
      rw [if_pos h0]
      exact @List.find?_cons_of_pos _ (fun p : ObjId × Thesis => p.1 == i) _ _ h0
    · rw [@List.find?_cons_of_neg _ (fun p : ObjId × Thesis => p.1 == i) e0 st h0] at h
      rw [if_neg h0]
      rw [@List.find?_cons_of_neg _ (fun p : ObjId × Thesis => p.1 == i) e0 _ h0]
      simpa only [writeTags] using ih h

theorem containsObj_of_find? {st : Store} {i : ObjId} {e : ObjId × Thesis}
    (h : st.find? (fun p => p.1 == i) = some e) : containsObj st i = true := by
  have hm := List.find?_some h
  have hmem := List.mem_of_find?_eq_some h
  exact containsObj_iff.mpr ⟨e, hmem, by simpa using hm⟩

theorem indexOf?_cons_self {x : String} (l : List String) :
    (x :: l).indexOf? x = some 0 := by
  simp [List.indexOf?, List.findIdx?_cons]

theorem indexOf?_of_not_mem {l : List String} {x : String} (h : x ∉ l) :
    l.indexOf? x = none := by
  induction l with
  | nil => rfl
  | cons a l ih =>
    have ha : ¬(a == x) = true := by
      simp only [beq_iff_eq]
      intro hax
      exact h (hax ▸ List.mem_cons_self a l)
    have hl : x ∉ l := fun hx => h (List.mem_cons_of_mem _ hx)
    have hrec : List.findIdx? (fun y => y == x) l = none := ih hl
    show List.findIdx? (fun y => y == x) (a :: l) = none
    rw [List.findIdx?_cons, if_neg ha, List.findIdx?_succ, hrec]
    rfl

theorem indexOf?_append_cons {a : List String} {x : String} (b : List String)
    (hxa : x ∉ a) : (a ++ x :: b).indexOf? x = some a.length := by
  induction a with
  | nil => simpa using indexOf?_cons_self b
  | cons y a ih =>
    have hy : ¬(y == x) = true := by
      simp only [beq_iff_eq]
      intro hyx
      exact hxa (hyx ▸ List.mem_cons_self y a)
    have hxa' : x ∉ a := fun hx => hxa (List.mem_cons_of_mem _ hx)
    have hrec : List.findIdx? (fun y => y == x) (a ++ x :: b) = some a.length := ih hxa'
    show List.findIdx? (fun y => y == x) (y :: (a ++ x :: b)) = some (a.length + 1)
    rw [List.findIdx?_cons, if_neg hy, List.findIdx?_succ, hrec]
    rfl

theorem eraseIdx_append_cons (a : List String) (x : String) (b : List String) :
    (a ++ x :: b).eraseIdx a.length = a ++ b := by
  induction a with
  | nil => rfl
  | cons y a ih => simpa [List.eraseIdx_cons_succ] using ih

/-- C9: for a stored thesis (`hfind`) — tagging twice with the same tag
`y` equals tagging once (the append happens only when the tag is absent);
untagging an absent tag `z` is a no-op; untagging `x` removes exactly the
first occurrence (`a ++ x :: b` with `x ∉ a` becomes `a ++ b`); and
tagging preserves duplicate-freeness of the tags array. -/
theorem C9_tag_untag (st : Store) (i : ObjId) (e : ObjId × Thesis)
    (x y z : String) (a b : List String) (sty : Store)
    (hfind : st.find? (fun p => p.1 == i) = some e)
    (hsplit : e.2.tags = a ++ x :: b) (hxa : x ∉ a) (hz : z ∉ e.2.tags)
    (hnd : e.2.tags.Nodup) (hty : tag_thesis st i y = .ok sty) :
    ((tag_thesis st i y).bind (fun s => tag_thesis s i y) = tag_thesis st i y)
      ∧ untag_thesis st i z = .ok st
      ∧ untag_thesis st i x = .ok (writeTags st i (a ++ b))
      ∧ (storedTags sty i).Nodup := by
  have hu : untag_thesis st i z = .ok st := by
    simp only [untag_thesis, hfind]
    rw [indexOf?_of_not_mem hz]
  have hux : untag_thesis st i x = .ok (writeTags st i (a ++ b)) := by
    simp only [untag_thesis, hfind, hsplit]
    rw [indexOf?_append_cons b hxa]
    show Except.ok (writeTags st i ((a ++ x :: b).eraseIdx a.length)) =
      Except.ok (writeTags st i (a ++ b))
    rw [eraseIdx_append_cons]
  have hchar : (e.2.tags.contains y = true ∧ sty = st) ∨
      (¬(e.2.tags.contains y = true) ∧ sty = writeTags st i (e.2.tags ++ [y])) := by
    simp only [tag_thesis, hfind] at hty
    by_cases hy : e.2.tags.contains y
    · left
      refine ⟨hy, ?_⟩
      rw [if_pos hy] at hty
      injection hty with h
      exact h.symm
    · right
      refine ⟨hy, ?_⟩
      rw [if_neg hy] at hty
      injection hty with h
      exact h.symm
  have hsecond : tag_thesis sty i y = .ok sty := by
    rcases hchar with ⟨hy, rfl⟩ | ⟨hy, rfl⟩
    · simp only [tag_thesis, hfind]
      rw [if_pos hy]
    · have hw := find?_writeTags hfind (e.2.tags ++ [y])
      simp only [tag_thesis, hw]
      have hc : (e.2.tags ++ [y]).contains y = true := by simp
      simp [hc]
  have hidem : (tag_thesis st i y).bind (fun s => tag_thesis s i y) = tag_thesis st i y := by
    rw [hty]
    show tag_thesis sty i y = Except.ok sty
    exact hsecond
  have hnodup : (storedTags sty i).Nodup := by
    rcases hchar with ⟨hy, rfl⟩ | ⟨hy, rfl⟩
    · simpa [storedTags, hfind] using hnd
    · have hw := find?_writeTags hfind (e.2.tags ++ [y])
      have hyni : y ∉ e.2.tags := by simpa using hy
      simp [storedTags, hw, List.nodup_append, hnd, hyni]
  exact ⟨hidem, hu, hux, hnodup⟩

/-- Witness for C9 at the concrete store `c9Store` (thesis `A`, tags
`["p", "q"]`): tag twice with `p`, untag the absent `z`, untag `q`
(the first — and only — occurrence), preserve duplicate-freeness. -/
theorem C9_tag_untag_witness :
    (c9Store.find? (fun p => p.1 == "A") =
      some ("A", { «alias» := none, content := (mkTextThesis none ["a"] []).content,
                   tags := ["p", "q"] })) ∧
    (((tag_thesis c9Store "A" "p").bind (fun s => tag_thesis s "A" "p")
        = tag_thesis c9Store "A" "p")
      ∧ untag_thesis c9Store "A" "z" = .ok c9Store
      ∧ untag_thesis c9Store "A" "q" = .ok (writeTags c9Store "A" (["p"] ++ []))
      ∧ (storedTags c9Store "A").Nodup) :=
  ⟨by decide,
   C9_tag_untag c9Store "A"
     ("A", { «alias» := none, content := (mkTextThesis none ["a"] []).content,
             tags := ["p", "q"] })
     "q" "p" "z" ["p"] [] c9Store (by decide) (by decide) (by decide) (by decide)
     (by decide) rfl⟩


/-! ### First-line regex (C7): helper lemmas -/

theorem takeWhile_spaces_replicate (cs : List Char) :
    cs.takeWhile (fun c => c == ' ') =
      List.replicate (cs.takeWhile (fun c => c == ' ')).length ' ' := by
  rw [List.eq_replicate_iff]
  refine ⟨rfl, fun b hb => ?_⟩
  have := List.mem_takeWhile_imp hb
  simpa using this

theorem takeWhile_append_of_all {p : Char → Bool} {l : List Char} (l' : List Char)
    (h : ∀ c ∈ l, p c = true) : (l ++ l').takeWhile p = l ++ l'.takeWhile p := by
  induction l with
  | nil => rfl
  | cons a l ih =>
    have ha := h a (List.mem_cons_self a l)
    rw [List.cons_append, List.takeWhile_cons, if_pos ha,
      ih (fun c hc => h c (List.mem_cons_of_mem _ hc))]
    rfl

theorem dropWhile_append_of_all {p : Char → Bool} {l : List Char} (l' : List Char)
    (h : ∀ c ∈ l, p c = true) : (l ++ l').dropWhile p = l'.dropWhile p := by
  induction l with
  | nil => rfl
  | cons a l ih =>
    have ha := h a (List.mem_cons_self a l)
    rw [List.cons_append, List.dropWhile_cons, if_pos ha,
      ih (fun c hc => h c (List.mem_cons_of_mem _ hc))]

theorem dropWhile_spaces_replicate_cons (n : Nat) (c : Char) (l : List Char)
    (hc : ¬(c == ' ') = true) :
    (List.replicate n ' ' ++ c :: l).dropWhile (fun c => c == ' ') = c :: l := by
  rw [dropWhile_append_of_all _ (by simp [List.mem_replicate])]
  rw [List.dropWhile_cons, if_neg hc]

theorem takeWhile_nonspace_replicate (k : Nat) :
    (List.replicate k ' ').takeWhile (fun c => c != ' ') = [] := by
  cases k with
  | zero => rfl
  | succ k => simp [List.replicate_succ, List.takeWhile_cons]

theorem dropWhile_nonspace_replicate (k : Nat) :
    (List.replicate k ' ').dropWhile (fun c => c != ' ') = List.replicate k ' ' := by
  cases k with
  | zero => rfl
  | succ k => simp [List.replicate_succ, List.dropWhile_cons]

/-- C7 (amended): the first line of a paragraph is accepted exactly when
it matches the code's regex `^ *(\+|-|#|\^) +([^ ]+) *$` — operation
character among `+ - # ^` (no `@`), then a *mandatory* space-separated
token, then only spaces; and a paragraph whose first line does not match
makes parsing fail with an error for that paragraph. -/
theorem C7_first_line_characterization (s : List Char) :
    ((Cmds.matchFirstLine s).isSome = true ↔ FirstLineShape s)
      ∧ (Cmds.matchFirstLine s = none →
          ∀ (idOf : Cmds.CContent → ObjId) (aliases : List (String × ObjId))
            (p : String), (Cmds.splitLines p.data).headD [] = s →
            Cmds.parseParagraph idOf aliases p = .error .badFirstLine) := by
  constructor
  · constructor
    · intro hsome
      unfold Cmds.matchFirstLine at hsome
      split at hsome
      case h_2 => cases hsome
      case h_1 c rest h1 =>
        split at hsome
        case isFalse => cases hsome
        case isTrue hop =>
          split at hsome
          case h_2 => cases hsome
          case h_1 c2 rest2 =>
            split at hsome
            case isFalse => cases hsome
            case isTrue hc2 =>
              split at hsome
              case isTrue => cases hsome
              case isFalse htokE =>
                split at hsome
                case isFalse => cases hsome
                case isTrue hall =>
                  refine ⟨(s.takeWhile (fun c => c == ' ')).length,
                    (rest2.takeWhile (fun c => c == ' ')).length,
                    ((rest2.dropWhile (fun c => c == ' ')).dropWhile
                      (fun c => c != ' ')).length, c,
                    (rest2.dropWhile (fun c => c == ' ')).takeWhile
                      (fun c => c != ' '), ?_, ?_, ?_, ?_⟩
                  · have hs' : s = s.takeWhile (fun c => c == ' ') ++
                        (c :: ' ' :: rest2) := by
                      conv_lhs => rw [←
                        @List.takeWhile_append_dropWhile Char (fun c => c == ' ') s]
                      rw [h1, hc2]
                    have hr3 : rest2.dropWhile (fun c => c == ' ') =
                        (rest2.dropWhile (fun c => c == ' ')).takeWhile
                          (fun c => c != ' ') ++
                        (rest2.dropWhile (fun c => c == ' ')).dropWhile
                          (fun c => c != ' ') :=
                      (List.takeWhile_append_dropWhile ..).symm
                    have hr4 : (rest2.dropWhile (fun c => c == ' ')).dropWhile
                        (fun c => c != ' ') =
                        List.replicate ((rest2.dropWhile (fun c => c == ' ')).dropWhile
                          (fun c => c != ' ')).length ' ' := by
                      rw [List.eq_replicate_iff]
                      refine ⟨rfl, fun b hb => ?_⟩
                      rw [List.all_eq_true] at hall
                      simpa using hall b hb
                    rw [List.replicate_succ, List.cons_append, List.cons_append,
                      List.append_assoc]
                    conv_lhs => rw [hs']
                    conv_lhs => rw [takeWhile_spaces_replicate s]
                    congr 2
                    conv_lhs => rw [←
                      @List.takeWhile_append_dropWhile Char (fun c => c == ' ') rest2]
                    conv_lhs => rw [takeWhile_spaces_replicate rest2]
                    congr 1
                    conv_lhs => rw [hr3]
                    exact congrArg (fun l =>
                      List.replicate (rest2.takeWhile (fun c => c == ' ')).length ' ' ++
                        ((rest2.dropWhile (fun c => c == ' ')).takeWhile
                          (fun c => c != ' ') ++ l)) hr4
                  · have h := hop
                    simp only [Bool.or_eq_true, decide_eq_true_eq] at h
                    tauto
                  · intro hnil
                    rw [hnil] at htokE
                    exact htokE rfl
                  · intro ch hch
                    have := List.mem_takeWhile_imp hch
                    simpa using this
    · rintro ⟨n, m, k, op, tok, rfl, hop, htokne, htoksp⟩
      have hopne : ¬(op == ' ') = true := by
        rcases hop with rfl | rfl | rfl | rfl <;> decide
      have hopb : (op = '+' || op = '-' || op = '#' || op = '^' : Bool) = true := by
        rcases hop with rfl | rfl | rfl | rfl <;> decide
      have h3 : (List.replicate m ' ' ++ (tok ++ List.replicate k ' ')).dropWhile
          (fun c => c == ' ') = tok ++ List.replicate k ' ' := by
        rw [dropWhile_append_of_all _ (by simp [List.mem_replicate])]
        cases tok with
        | nil => exact absurd rfl htokne
        | cons t0 tok' =>
          rw [List.cons_append, List.dropWhile_cons,
            if_neg (by simpa using htoksp t0 (List.mem_cons_self t0 tok'))]
      have h4 : (tok ++ List.replicate k ' ').takeWhile (fun c => c != ' ') = tok := by
        rw [takeWhile_append_of_all _ (fun c hc => by simpa using htoksp c hc)]
        rw [takeWhile_nonspace_replicate, List.append_nil]
      have h5 : (tok ++ List.replicate k ' ').dropWhile (fun c => c != ' ') =
          List.replicate k ' ' := by
        rw [dropWhile_append_of_all _ (fun c hc => by simpa using htoksp c hc)]
        exact dropWhile_nonspace_replicate k
      have h6 : tok.isEmpty = false := by
        cases tok with
        | nil => exact absurd rfl htokne
        | cons t0 tok' => rfl
      unfold Cmds.matchFirstLine
      rw [dropWhile_spaces_replicate_cons _ _ _ hopne]
      simp [hopb, List.replicate_succ, List.cons_append, List.append_assoc, h3, h4,
        h5, h6, List.all_eq_true, List.mem_replicate]
  · intro hnone idOf aliases p hp
    have hp' : (Cmds.splitLines p.data).head?.getD [] = s := by
      simpa using hp
    simp [Cmds.parseParagraph, hp', hnone]

/-! ### Text parsing (C2): matching lemmas -/

theorem isB64Char_ne {c : Char} (h : isB64Char c = true) :
    c ≠ ':' ∧ c ≠ '[' ∧ c ≠ ']' := by
  refine ⟨?_, ?_, ?_⟩ <;> rintro rfl <;> exact absurd h (by decide)

theorem take22Id_of_id {s : String} (hs : isIdString s = true) (rest : List Char) :
    TextP.take22Id (s.data ++ ']' :: rest) = some (s, rest) := by
  have hlen : s.data.length = 22 := by
    simp [isIdString] at hs
    exact hs.1
  have hall : ∀ c ∈ s.data, isB64Char c = true := by
    simp [isIdString, List.all_eq_true] at hs
    exact hs.2
  have htake : (s.data ++ ']' :: rest).take 22 = s.data := by
    conv_lhs => rw [← hlen]
    exact List.take_left ..
  have hdrop : (s.data ++ ']' :: rest).drop 22 = ']' :: rest := by
    conv_lhs => rw [← hlen]
    exact List.drop_left ..
  unfold TextP.take22Id
  rw [htake, hdrop]
  rw [if_pos (by
    simp only [List.all_eq_true, Bool.and_eq_true, decide_eq_true_eq]
    exact ⟨hlen, hall⟩)]
  rfl

theorem take22Id_none {l : List Char} (hnb : ∀ c ∈ l, c ≠ '[' ∧ c ≠ ']')
    (hno : ¬(l.length = 22 ∧ ∀ c ∈ l, isB64Char c = true)) (rest : List Char) :
    TextP.take22Id (l ++ ']' :: rest) = none := by
  unfold TextP.take22Id
  rcases Nat.lt_trichotomy l.length 22 with hlt | heq | hgt
  · have hmem : ']' ∈ (l ++ ']' :: rest).take 22 := by
      rw [List.take_append_eq_append_take]
      apply List.mem_append_right
      have h22 : 22 - l.length = (22 - l.length - 1) + 1 := by omega
      rw [h22]
      exact List.mem_cons_self _ _
    have hfalse : ((l ++ ']' :: rest).take 22).all isB64Char = false := by
      cases hx : ((l ++ ']' :: rest).take 22).all isB64Char with
      | false => rfl
      | true =>
        rw [List.all_eq_true] at hx
        exact absurd (hx _ hmem) (by decide)
    rw [if_neg (by simp [hfalse])]
  · have htake : (l ++ ']' :: rest).take 22 = l := by
      conv_lhs => rw [← heq]
      exact List.take_left ..
    have hallf : l.all isB64Char = false := by
      cases hx : l.all isB64Char with
      | false => rfl
      | true =>
        rw [List.all_eq_true] at hx
        exact absurd ⟨heq, hx⟩ hno
    rw [htake]
    rw [if_neg (by simp [hallf])]
  · by_cases hcond : (((l ++ ']' :: rest).take 22).length = 22 ∧
        ((l ++ ']' :: rest).take 22).all isB64Char = true)
    · rw [if_pos (by simp [hcond.1, hcond.2])]
      have hdrop : (l ++ ']' :: rest).drop 22 = l.drop 22 ++ ']' :: rest := by
        rw [List.drop_append_eq_append_drop]
        have h0 : 22 - l.length = 0 := by omega
        rw [h0, List.drop_zero]
      rw [hdrop]
      cases hd : l.drop 22 with
      | nil =>
        exfalso
        have := congrArg List.length hd
        simp at this
        omega
      | cons c0 ld =>
        have hc0 : c0 ∈ l := by
          have : c0 ∈ l.drop 22 := by rw [hd]; exact List.mem_cons_self _ _
          exact List.mem_of_mem_drop this
        show (if c0 = ']' then
            some (String.mk ((l ++ ']' :: rest).take 22), ld ++ ']' :: rest)
          else none) = none
        rw [if_neg (fun hceq => (hnb c0 hc0).2 hceq)]
    · rw [if_neg (by
        intro hx
        rcases Bool.and_eq_true_iff.mp hx with ⟨hx1, hx2⟩
        exact hcond ⟨by simpa using hx1, hx2⟩)]

theorem strmk_data (s : String) : String.mk s.data = s := rfl

theorem idAlt_of_id {s : String} (hs : isIdString s = true) (rest : List Char) :
    TextP.idAlt (s.data ++ ']' :: rest) = some (.id s, rest) := by
  have hlen : s.data.length = 22 := by
    simp [isIdString] at hs
    exact hs.1
  have hall : ∀ c ∈ s.data, isB64Char c = true := by
    simp [isIdString, List.all_eq_true] at hs
    exact hs.2
  obtain ⟨c0, cs0, hd⟩ : ∃ c0 cs0, s.data = c0 :: cs0 := by
    cases hx : s.data with
    | nil => rw [hx] at hlen; cases hlen
    | cons c0 cs0 => exact ⟨c0, cs0, rfl⟩
  have hc0 : ¬(c0 = ':') := by
    have hb := hall c0 (by rw [hd]; exact List.mem_cons_self _ _)
    exact (isB64Char_ne hb).1
  rw [hd, List.cons_append]
  simp only [TextP.idAlt]
  rw [if_neg hc0, ← List.cons_append, ← hd, take22Id_of_id hs rest]
  rfl

theorem idAlt_none_of_alias {a : String}
    (hne : a.data ≠ []) (hnb : ∀ c ∈ a.data, c ≠ '[' ∧ c ≠ ']')
    (hps : TextP.pseudoId a = false) (rest : List Char) :
    TextP.idAlt (a.data ++ ']' :: rest) = none := by
  obtain ⟨c0, cs0, hd⟩ : ∃ c0 cs0, a.data = c0 :: cs0 := by
    cases hx : a.data with
    | nil => exact absurd hx hne
    | cons c0 cs0 => exact ⟨c0, cs0, rfl⟩
  rw [hd, List.cons_append]
  simp only [TextP.idAlt]
  by_cases hc0 : c0 = ':'
  · rw [if_pos hc0]
    have hn : TextP.take22Id (cs0 ++ ']' :: rest) = none := by
      apply take22Id_none
      · intro c hc
        exact hnb c (by rw [hd]; exact List.mem_cons_of_mem _ hc)
      · intro ⟨h22, hball⟩
        have hpt : TextP.pseudoId a = true := by
          unfold TextP.pseudoId
          apply Bool.or_eq_true_iff.mpr
          right
          rw [hd, hc0]
          simp only [Bool.and_eq_true, beq_iff_eq, List.all_eq_true]
          exact ⟨h22, hball⟩
        rw [hpt] at hps
        cases hps
    rw [hn]
    rfl
  · rw [if_neg hc0, ← List.cons_append, ← hd]
    have hn : TextP.take22Id (a.data ++ ']' :: rest) = none := by
      apply take22Id_none hnb
      intro ⟨h22, hball⟩
      have hpt : TextP.pseudoId a = true := by
        unfold TextP.pseudoId
        apply Bool.or_eq_true_iff.mpr
        left
        simp only [Bool.and_eq_true, beq_iff_eq, List.all_eq_true]
        exact ⟨h22, hball⟩
      rw [hpt] at hps
      cases hps
    rw [hn]
    rfl

theorem okTok_al_parts {a : String} (hok : TextP.okTok (.al a) = true) :
    a.data ≠ [] ∧ (∀ c ∈ a.data, c ≠ '[' ∧ c ≠ ']') ∧ TextP.pseudoId a = false := by
  simp only [TextP.okTok, Bool.and_eq_true, Bool.not_eq_true'] at hok
  obtain ⟨⟨hne, hnb⟩, hps⟩ := hok
  refine ⟨?_, ?_, hps⟩
  · intro hx
    rw [hx] at hne
    cases hne
  · intro c hc
    rw [List.all_eq_true] at hnb
    have := hnb c hc
    simp only [Bool.and_eq_true, bne_iff_ne, ne_eq] at this
    exact this

theorem matchAt_renderTok {t : TextP.Tok} (hok : TextP.okTok t = true)
    (rest : List Char) :
    TextP.matchAt (TextP.renderTok t ++ rest) = some (t, rest) := by
  cases t with
  | id s =>
    have h1 : TextP.renderTok (.id s) ++ rest = '[' :: (s.data ++ ']' :: rest) := by
      simp [TextP.renderTok]
    rw [h1]
    simp only [TextP.matchAt, if_true]
    rw [idAlt_of_id (by
      simp only [TextP.okTok, isCanonicalId, Bool.and_eq_true] at hok
      exact hok.1) rest]
  | al a =>
    obtain ⟨hne, hnb, hps⟩ := okTok_al_parts hok
    have h1 : TextP.renderTok (.al a) ++ rest = '[' :: (a.data ++ ']' :: rest) := by
      simp [TextP.renderTok]
    rw [h1]
    simp only [TextP.matchAt, if_true]
    rw [idAlt_none_of_alias hne hnb hps rest]
    have hpred : ∀ c ∈ a.data, (fun c => c != '[' && c != ']') c = true := by
      intro c hc
      have := hnb c hc
      simp [this.1, this.2]
    have hrun : (a.data ++ ']' :: rest).takeWhile
        (fun c => c != '[' && c != ']') = a.data := by
      rw [takeWhile_append_of_all _ hpred]
      rw [List.takeWhile_cons]
      simp
    have hdropL : (a.data ++ ']' :: rest).drop a.data.length = ']' :: rest :=
      List.drop_left ..
    have hie : a.data.isEmpty = false := by
      cases hx : a.data with
      | nil => exact absurd hx hne
      | cons c0 cs0 => rfl
    simp only [hrun, hie, Bool.false_eq_true, if_false, hdropL]
    rw [if_true, strmk_data]

theorem matchAt_none_of_head_ne {c : Char} (hc : c ≠ '[') (cs : List Char) :
    TextP.matchAt (c :: cs) = none := by
  simp only [TextP.matchAt]
  rw [if_neg hc]

theorem findRef_renderTok {t : TextP.Tok} (hok : TextP.okTok t = true)
    (rest : List Char) :
    TextP.findRef (TextP.renderTok t ++ rest) = some ([], t, rest) := by
  obtain ⟨tl, htl⟩ : ∃ tl, TextP.renderTok t ++ rest = '[' :: tl := by
    cases t with
    | id s => exact ⟨s.data ++ ']' :: rest, by simp [TextP.renderTok]⟩
    | al a => exact ⟨a.data ++ ']' :: rest, by simp [TextP.renderTok]⟩
  rw [htl]
  simp only [TextP.findRef]
  rw [← htl, matchAt_renderTok hok rest]

theorem findRef_append_raw {l : List Char} (hl : ∀ c ∈ l, c ≠ '[') (s : List Char) :
    TextP.findRef (l ++ s) =
      (TextP.findRef s).map (fun p => (l ++ p.1, p.2.1, p.2.2)) := by
  induction l with
  | nil => cases hf : TextP.findRef s <;> simp [hf]
  | cons c l ih =>
    rw [List.cons_append]
    have hm := matchAt_none_of_head_ne (hl c (List.mem_cons_self c l)) (l ++ s)
    simp only [TextP.findRef, hm]
    rw [ih (fun c hc => hl c (List.mem_cons_of_mem _ hc))]
    cases hf : TextP.findRef s <;> simp [hf]

theorem findRef_none_of_no_bracket {l : List Char} (hl : ∀ c ∈ l, c ≠ '[') :
    TextP.findRef l = none := by
  rw [← List.append_nil l, findRef_append_raw hl]
  rfl

theorem renderTok_length (t : TextP.Tok) : 2 ≤ (TextP.renderTok t).length := by
  cases t <;> simp [TextP.renderTok]

theorem body_length_le (body : List (String × TextP.Tok)) (trailL : List Char) :
    body.length ≤ ((body.map (fun p => p.1.data ++ TextP.renderTok p.2)).flatten
      ++ trailL).length := by
  induction body with
  | nil => simp
  | cons p body ih =>
    have h2 := renderTok_length p.2
    simp only [List.map_cons, List.flatten_cons, List.length_cons,
      List.length_append, List.append_assoc] at *
    omega

theorem scanRefsF_body (body : List (String × TextP.Tok)) (trailL : List Char)
    (hb : ∀ p ∈ body, TextP.okRaw p.1 = true ∧ TextP.okTok p.2 = true)
    (ht : ∀ c ∈ trailL, c ≠ '[') :
    ∀ fuel, body.length < fuel →
    TextP.scanRefsF fuel
      ((body.map (fun p => p.1.data ++ TextP.renderTok p.2)).flatten ++ trailL)
      = (body.map (fun p => (p.1.data, p.2)), trailL) := by
  induction body with
  | nil =>
    intro fuel hfuel
    cases fuel with
    | zero => omega
    | succ f =>
      simp only [List.map_nil, List.flatten_nil, List.nil_append, TextP.scanRefsF]
      rw [findRef_none_of_no_bracket ht]
  | cons p body ih =>
    intro fuel hfuel
    cases fuel with
    | zero => omega
    | succ f =>
      have hpok := hb p (List.mem_cons_self p body)
      have hrawnb : ∀ c ∈ p.1.data, c ≠ '[' := by
        intro c hc
        have h1 := hpok.1
        simp only [TextP.okRaw, Bool.and_eq_true, List.all_eq_true] at h1
        have := h1.2 c hc
        simp only [Bool.and_eq_true, bne_iff_ne, ne_eq] at this
        exact this.1
      rw [List.map_cons, List.flatten_cons, List.append_assoc, List.append_assoc]
      have hfr2 : TextP.findRef (p.1.data ++ (TextP.renderTok p.2 ++
          ((body.map (fun p => p.1.data ++ TextP.renderTok p.2)).flatten ++ trailL)))
          = some (p.1.data, p.2,
            (body.map (fun p => p.1.data ++ TextP.renderTok p.2)).flatten ++ trailL) := by
        rw [findRef_append_raw hrawnb]
        rw [findRef_renderTok hpok.2]
        simp
      simp only [TextP.scanRefsF, hfr2]
      rw [ih (fun q hq => hb q (List.mem_cons_of_mem _ hq)) f (by
        simp only [List.length_cons] at hfuel
        omega)]
      rfl

theorem scanRefs_renderSource (lead : Option TextP.Tok)
    (body : List (String × TextP.Tok)) (trailL : List Char)
    (hlead : ∀ t, lead = some t → TextP.okTok t = true)
    (hb : ∀ p ∈ body, TextP.okRaw p.1 = true ∧ TextP.okTok p.2 = true)
    (ht : ∀ c ∈ trailL, c ≠ '[') :
    TextP.scanRefs ((match lead with | some t => TextP.renderTok t | none => []) ++
      ((body.map (fun p => p.1.data ++ TextP.renderTok p.2)).flatten ++ trailL)) =
      ((match lead with | some t => [(([] : List Char), t)] | none => []) ++
        body.map (fun p => (p.1.data, p.2)), trailL) := by
  cases lead with
  | none =>
    simp only [List.nil_append]
    unfold TextP.scanRefs
    rw [scanRefsF_body body trailL hb ht _ (by
      have := body_length_le body trailL
      omega)]
  | some t =>
    simp only []
    unfold TextP.scanRefs
    have hfuel0 : 0 < (TextP.renderTok t ++
        ((body.map (fun p => p.1.data ++ TextP.renderTok p.2)).flatten ++ trailL)).length
        + 1 := Nat.succ_pos _
    simp only [TextP.scanRefsF, findRef_renderTok (hlead t rfl)]
    rw [scanRefsF_body body trailL hb ht _ (by
      have h1 := body_length_le body trailL
      rw [List.length_append]
      have h2 := renderTok_length t
      omega)]
    rfl

theorem mapM_resolveTok (resolver : String → Option ObjId) (ts : List TextP.Tok)
    (h : ∀ t ∈ ts, (TextP.resolveTok resolver t).isSome = true) :
    ts.mapM (TextP.resolveTok resolver) =
      some (ts.map (fun t => (TextP.resolveTok resolver t).getD "")) := by
  induction ts with
  | nil => rfl
  | cons t ts ih =>
    rw [List.mapM_cons]
    have h1 := h t (List.mem_cons_self t ts)
    cases hr : TextP.resolveTok resolver t with
    | none => rw [hr] at h1; cases h1
    | some v =>
      rw [ih (fun u hu => h u (List.mem_cons_of_mem _ hu))]
      simp [hr]

theorem data_lbrack : "[".data = ['['] := rfl

theorem data_rbrack : "]".data = [']'] := rfl

theorem data_empty : "".data = ([] : List Char) := rfl

theorem composedRefsFirst_data (resolver : String → Option ObjId) :
    ∀ (body : List (String × TextP.Tok)) (ps : List String) (x : ObjId),
    (composedRefsFirst (x :: body.map (fun p => (TextP.resolveTok resolver p.2).getD ""))
      (body.map (·.1) ++ ps)).data =
      '[' :: (x.data ++ [']']) ++
        ((body.map (fun p => p.1.data ++ TextP.renderIdTok resolver p.2)).flatten
          ++ (ps.headD "").data) := by
  intro body
  induction body with
  | nil =>
    intro ps x
    cases ps with
    | nil =>
      simp [composedRefsFirst, String.data_append, data_lbrack, data_rbrack,
        data_empty]
    | cons p ps' =>
      simp [composedRefsFirst, String.data_append, data_lbrack, data_rbrack,
        data_empty]
  | cons q body ih =>
    intro ps x
    simp only [List.map_cons, List.cons_append, composedRefsFirst,
      String.data_append, data_lbrack, data_rbrack, List.append_eq]
    rw [ih ps ((TextP.resolveTok resolver q.2).getD "")]
    simp [TextP.renderIdTok, List.append_assoc]

theorem composedPartsFirst_nil_refs :
    ∀ (ps : List String), (composedPartsFirst ps []).data =
      (ps.map String.data).flatten := by
  intro ps
  induction ps with
  | nil => rfl
  | cons p ps ih => simp [composedPartsFirst, String.data_append, ih]

theorem composedPartsFirst_data (resolver : String → Option ObjId) :
    ∀ (body : List (String × TextP.Tok)) (ps : List String),
    (composedPartsFirst (body.map (·.1) ++ ps)
      (body.map (fun p => (TextP.resolveTok resolver p.2).getD ""))).data =
      (body.map (fun p => p.1.data ++ TextP.renderIdTok resolver p.2)).flatten
        ++ (ps.map String.data).flatten := by
  intro body
  induction body with
  | nil =>
    intro ps
    simpa using composedPartsFirst_nil_refs ps
  | cons q body ih =>
    intro ps
    simp only [List.map_cons, List.cons_append, composedPartsFirst,
      String.data_append, data_lbrack, data_rbrack, List.append_eq]
    rw [ih ps]
    simp [TextP.renderIdTok, List.append_assoc]

theorem data_mk (l : List Char) : (String.mk l).data = l := rfl

theorem filter_parts_map (body : List (String × TextP.Tok))
    (hb : ∀ p ∈ body, TextP.okRaw p.1 = true ∧ TextP.okTok p.2 = true) :
    (((body.map (fun p => (p.1.data, p.2))).map (·.1)).filter
        (fun l => !l.isEmpty)).map (fun l => String.mk l) = body.map (·.1) := by
  induction body with
  | nil => rfl
  | cons q body ih =>
    have hne : q.1.data.isEmpty = false := by
      have h1 := (hb q (List.mem_cons_self q body)).1
      simp only [TextP.okRaw, Bool.and_eq_true, Bool.not_eq_true'] at h1
      exact h1.1
    simp only [List.map_cons, List.filter_cons, hne, Bool.not_false, if_true,
      List.map_cons]
    rw [ih (fun p hp => hb p (List.mem_cons_of_mem _ hp))]


theorem TextNew_renderSource_none (resolver : String → Option ObjId)
    (body : List (String × TextP.Tok)) (trailL : List Char)
    (hb : ∀ p ∈ body, TextP.okRaw p.1 = true ∧ TextP.okTok p.2 = true)
    (ht : ∀ c ∈ trailL, c ≠ '[')
    (hresb : ∀ p ∈ body, (TextP.resolveTok resolver p.2).isSome = true) :
    TextP.TextNew (String.mk
        ((body.map (fun p => p.1.data ++ TextP.renderTok p.2)).flatten ++
          trailL)) resolver =
      some { raw_text_parts :=
               body.map (·.1) ++
                 (if trailL.isEmpty then [] else [String.mk trailL])
             references := body.map (fun p => (TextP.resolveTok resolver p.2).getD "")
             start_with_reference := false } := by
  have hbne : ∀ p ∈ body, p.1.data.isEmpty = false := by
    intro q hq
    have h1 := (hb q hq).1
    simp only [TextP.okRaw, Bool.and_eq_true, Bool.not_eq_true'] at h1
    exact h1.1
  have hparts := filter_parts_map body hb
  have hscan : TextP.scanRefs
      ((body.map (fun p => p.1.data ++ TextP.renderTok p.2)).flatten ++ trailL) =
      (body.map (fun p => (p.1.data, p.2)), trailL) := by
    unfold TextP.scanRefs
    rw [scanRefsF_body body trailL hb ht _ (by
      have := body_length_le body trailL
      omega)]
  have hmm := mapM_resolveTok resolver (body.map (·.2)) (by
    intro u hu
    obtain ⟨q, hq, rfl⟩ := List.mem_map.mp hu
    exact hresb q hq)
  have hmm2 : ((body.map (fun p => (p.1.data, p.2))).map (·.2)).mapM
      (TextP.resolveTok resolver) =
      some (body.map (fun p => (TextP.resolveTok resolver p.2).getD "")) := by
    rw [show ((body.map (fun p => (p.1.data, p.2))).map (·.2)) =
      body.map (·.2) by simp [List.map_map]]
    rw [hmm]
    simp [List.map_map]
  have hflag : (match body.map (fun p => (p.1.data, p.2)) with
      | [] => false
      | (pre, _) :: _ => pre.isEmpty) = false := by
    cases body with
    | nil => rfl
    | cons q body =>
      simp only [List.map_cons]
      exact hbne q (List.mem_cons_self q body)
  simp only [TextP.TextNew, data_mk, hscan, hmm2, hparts, hflag]

theorem TextNew_renderSource_some (resolver : String → Option ObjId)
    (t : TextP.Tok) (body : List (String × TextP.Tok)) (trailL : List Char)
    (htok : TextP.okTok t = true)
    (hb : ∀ p ∈ body, TextP.okRaw p.1 = true ∧ TextP.okTok p.2 = true)
    (ht : ∀ c ∈ trailL, c ≠ '[')
    (hrt : (TextP.resolveTok resolver t).isSome = true)
    (hresb : ∀ p ∈ body, (TextP.resolveTok resolver p.2).isSome = true) :
    TextP.TextNew (String.mk
        (TextP.renderTok t ++
          ((body.map (fun p => p.1.data ++ TextP.renderTok p.2)).flatten ++
            trailL))) resolver =
      some { raw_text_parts :=
               body.map (·.1) ++
                 (if trailL.isEmpty then [] else [String.mk trailL])
             references :=
               (TextP.resolveTok resolver t).getD "" ::
                 body.map (fun p => (TextP.resolveTok resolver p.2).getD "")
             start_with_reference := true } := by
  have hparts := filter_parts_map body hb
  have hscan : TextP.scanRefs (TextP.renderTok t ++
      ((body.map (fun p => p.1.data ++ TextP.renderTok p.2)).flatten ++ trailL)) =
      ((([] : List Char), t) :: body.map (fun p => (p.1.data, p.2)), trailL) := by
    unfold TextP.scanRefs
    simp only [TextP.scanRefsF, findRef_renderTok htok]
    rw [scanRefsF_body body trailL hb ht _ (by
      have h1 := body_length_le body trailL
      rw [List.length_append]
      have h2 := renderTok_length t
      omega)]
  have hmm := mapM_resolveTok resolver (t :: body.map (·.2)) (by
    intro u hu
    rcases List.mem_cons.mp hu with h | h
    · rw [h]; exact hrt
    · obtain ⟨q, hq, rfl⟩ := List.mem_map.mp h
      exact hresb q hq)
  have hmm2 : ((((([] : List Char), t) ::
        body.map (fun p => (p.1.data, p.2))).map (·.2)).mapM
      (TextP.resolveTok resolver)) =
      some ((TextP.resolveTok resolver t).getD "" ::
        body.map (fun p => (TextP.resolveTok resolver p.2).getD "")) := by
    rw [show ((((([] : List Char), t) ::
          body.map (fun p => (p.1.data, p.2))).map (·.2)) =
      t :: body.map (·.2)) by simp [List.map_map]]
    rw [hmm]
    simp [List.map_map]
  have hparts2 : ((((([] : List Char), t) ::
        body.map (fun p => (p.1.data, p.2))).map (·.1)).filter
        (fun l => !l.isEmpty)).map (fun l => String.mk l) = body.map (·.1) := by
    simp only [List.map_cons, List.filter_cons, List.isEmpty_nil, Bool.not_true,
      Bool.false_eq_true, if_false]
    exact hparts
  simp only [TextP.TextNew, data_mk, hscan, hmm2, hparts2, List.isEmpty_nil]

/-- C2 (counterexample): the source text `[:QQQQQQQQQQQQQQQQQQQQQQ]` is
valid by the specification's words — its token is a non-empty,
bracket-free alias — and its alias resolves; but the `(:?` slip in the
reference regex of src/text.rs:47 (a *capturing group with an optional
literal colon*, not the intended non-capturing `(?:`) makes `Text::new`
capture the token in the id group as `QQQQQQQQQQQQQQQQQQQQQQ`, dropping
the colon and never consulting the resolver, so the parse succeeds and
composes to `[QQQQQQQQQQQQQQQQQQQQQQ]` — not to the claimed id-form
`[AAAAAAAAAAAAAAAAAAAAAA]`.  The claimed round trip is therefore false
for spec-valid sources. -/
theorem C2_counterexample :
    TextP.specOkSource c2CexSource = true ∧
    TextP.resolvesAll c2CexResolver c2CexSource = true ∧
    TextP.TextNew (String.mk (TextP.renderSource c2CexSource)) c2CexResolver =
      some c2CexText ∧
    (Text.composed c2CexText).data ≠
      TextP.renderIdSource c2CexResolver c2CexSource := by
  refine ⟨by decide, by decide, by rfl, by decide⟩

/-- C2 (amended): for every source text valid in the amended sense —
raw spans strictly interleaved with bracketed references, with id tokens
in canonical 22-character `ObjectId` text form and alias tokens not
shaped like the buggy optional-colon id capture (`okSource`) — and every
resolver that resolves all its alias tokens, `Text::new` succeeds and
`Text::composed` of the resulting `Text` is exactly the id-form of the
source: the input text with each bracketed alias replaced by the
bracketed 22-character id it resolves to, id references passing through
unchanged.  (On spec-valid sources outside this set the round trip can
fail — see `C2_counterexample`.) -/
theorem C2_parse_compose_roundtrip (src : TextP.Source)
    (resolver : String → Option ObjId)
    (hok : TextP.okSource src = true)
    (hres : TextP.resolvesAll resolver src = true) :
    ∃ T, TextP.TextNew (String.mk (TextP.renderSource src)) resolver = some T ∧
      (Text.composed T).data = TextP.renderIdSource resolver src := by
  obtain ⟨lead, body, trail⟩ := src
  simp only [TextP.okSource, Bool.and_eq_true] at hok
  obtain ⟨⟨hlead0, hbody0⟩, htrail0⟩ := hok
  simp only [TextP.resolvesAll, Bool.and_eq_true] at hres
  obtain ⟨hres1, hres2⟩ := hres
  have hb : ∀ p ∈ body, TextP.okRaw p.1 = true ∧ TextP.okTok p.2 = true := by
    intro q hq
    rw [List.all_eq_true] at hbody0
    simpa [Bool.and_eq_true] using hbody0 q hq
  have hbres : ∀ p ∈ body, (TextP.resolveTok resolver p.2).isSome = true := by
    intro q hq
    rw [List.all_eq_true] at hres2
    simpa using hres2 q hq
  cases trail with
  | none =>
    have ht : ∀ c ∈ ([] : List Char), c ≠ '[' := by
      intro c hc
      cases hc
    cases lead with
    | none =>
      have hrender : TextP.renderSource ⟨none, body, none⟩ =
          (body.map (fun p => p.1.data ++ TextP.renderTok p.2)).flatten ++
            ([] : List Char) := by
        simp [TextP.renderSource]
      refine ⟨_, by rw [hrender]; exact
        TextNew_renderSource_none resolver body [] hb ht hbres, ?_⟩
      · simp only [Text.composed, Bool.false_eq_true, if_false,
          List.isEmpty_nil, if_true, List.append_nil]
        rw [show (body.map (fun p : String × TextP.Tok => p.1)) =
          body.map (fun p : String × TextP.Tok => p.1) ++ ([] : List String)
          from (List.append_nil _).symm]
        rw [composedPartsFirst_data resolver body []]
        simp [TextP.renderIdSource]
    | some t =>
      have htok : TextP.okTok t = true := hlead0
      have hrt : (TextP.resolveTok resolver t).isSome = true := hres1
      have hrender : TextP.renderSource ⟨some t, body, none⟩ =
          TextP.renderTok t ++
            ((body.map (fun p => p.1.data ++ TextP.renderTok p.2)).flatten ++
              ([] : List Char)) := by
        simp [TextP.renderSource]
      refine ⟨_, by rw [hrender]; exact
        TextNew_renderSource_some resolver t body [] htok hb ht hrt hbres, ?_⟩
      · simp only [Text.composed, if_true, List.isEmpty_nil, List.append_nil]
        rw [show (body.map (fun p : String × TextP.Tok => p.1)) =
          body.map (fun p : String × TextP.Tok => p.1) ++ ([] : List String)
          from (List.append_nil _).symm]
        rw [composedRefsFirst_data resolver body []
          ((TextP.resolveTok resolver t).getD "")]
        simp [TextP.renderIdSource, TextP.renderIdTok, List.append_assoc]
  | some r =>
    have hraw : TextP.okRaw r = true := htrail0
    simp only [TextP.okRaw, Bool.and_eq_true, Bool.not_eq_true'] at hraw
    have hne : r.data.isEmpty = false := hraw.1
    have ht : ∀ c ∈ r.data, c ≠ '[' := by
      intro c hc
      have h1 := List.all_eq_true.mp hraw.2 c hc
      simp only [Bool.and_eq_true, bne_iff_ne, ne_eq] at h1
      exact h1.1
    have hif : (if r.data.isEmpty then ([] : List String)
        else [String.mk r.data]) = [r] := by
      rw [hne]
      simp [strmk_data]
    cases lead with
    | none =>
      have hrender : TextP.renderSource ⟨none, body, some r⟩ =
          (body.map (fun p => p.1.data ++ TextP.renderTok p.2)).flatten ++
            r.data := by
        simp [TextP.renderSource]
      refine ⟨_, by rw [hrender]; exact
        TextNew_renderSource_none resolver body r.data hb ht hbres, ?_⟩
      · simp only [Text.composed, Bool.false_eq_true, if_false, hif]
        rw [composedPartsFirst_data resolver body [r]]
        simp [TextP.renderIdSource]
    | some t =>
      have htok : TextP.okTok t = true := hlead0
      have hrt : (TextP.resolveTok resolver t).isSome = true := hres1
      have hrender : TextP.renderSource ⟨some t, body, some r⟩ =
          TextP.renderTok t ++
            ((body.map (fun p => p.1.data ++ TextP.renderTok p.2)).flatten ++
              r.data) := by
        simp [TextP.renderSource]
      refine ⟨_, by rw [hrender]; exact
        TextNew_renderSource_some resolver t body r.data htok hb ht hrt hbres, ?_⟩
      · simp only [Text.composed, if_true, hif]
        rw [composedRefsFirst_data resolver body [r]
          ((TextP.resolveTok resolver t).getD "")]
        simp [TextP.renderIdSource, TextP.renderIdTok, List.append_assoc]

/-- Witness for C2: the source `hello [w] end` (no leading reference, one
alias reference, a trailing span) with a resolver sending `w` to a
canonical 22-character id satisfies the hypotheses, and the theorem
applies. -/
theorem C2_parse_compose_roundtrip_witness :
    TextP.okSource c2WitnessSource = true ∧
    TextP.resolvesAll c2WitnessResolver c2WitnessSource = true ∧
    ∃ T, TextP.TextNew (String.mk (TextP.renderSource c2WitnessSource))
        c2WitnessResolver = some T ∧
      (Text.composed T).data =
        TextP.renderIdSource c2WitnessResolver c2WitnessSource :=
  ⟨by decide, by decide,
    C2_parse_compose_roundtrip c2WitnessSource c2WitnessResolver
      (by decide) (by decide)⟩

/-- Witness for C7's amended theorem: the line `+ a` is accepted and has
the regex shape; the line `-` does not match, and a paragraph starting
with it fails with `badFirstLine`. -/
theorem C7_first_line_characterization_witness :
    FirstLineShape ('+' :: ' ' :: 'a' :: []) ∧
    Cmds.parseParagraph (fun _ => "") [] "-" = .error .badFirstLine :=
  ⟨(C7_first_line_characterization ('+' :: ' ' :: 'a' :: [])).1.mp (by decide),
   (C7_first_line_characterization ('-' :: [])).2 (by decide)
     (fun _ => "") [] "-" (by decide)⟩
